import Mathlib

/-! # TS3Tunnel: server client registry and client voice-session pipeline

A shallow embedding of `TS3Tunnel.Server/Server.cpp` (the listener registry,
its datagram dispatch and its eviction sweep) and of
`TS3Tunnel.Client/Client.cpp` (the voice-frame demultiplexer and the session
table), with the properties of the specification stated over them.

Conventions of the embedding:
* a `QByteArray` is the list of its bytes and a `QString` the list of its
  UTF-16 code units, both as natural numbers;
* a `QHostAddress` is a natural number, a port is a natural number;
* `QDateTime::currentDateTime().toTime_t()` is an explicit argument, in whole
  seconds;
* the mutex is not modelled: every slot runs as one atomic step;
* the `int` counters of the client are integers that wrap at 32 bits;
* the Opus and PortAudio calls are functions of an environment `Env`, and the
  client carries a `trace` of the calls and signals it makes;
* `QDataStream` reads are big-endian, and a read past the end of the datagram
  yields 0 and consumes the bytes that are left (Qt 5).
-/

namespace TS3Tunnel

/-! ## Server: data model -/

/-- Bytes of a datagram (`QByteArray`). -/
abbrev QByteArray := List Nat

/-- UTF-16 code units of a `QString`. -/
abbrev QString := List Nat

/-- Network address (`QHostAddress`). -/
abbrev QHostAddress := Nat

/-- `QString::fromLatin1(data, size)`: every byte becomes the code unit of the
same value (the byte is read as an unsigned char). -/
def fromLatin1 (data : QByteArray) : QString :=
  data.map (fun b => b % 256)

/-- `Server::PING_STR = "Ping"`. -/
def PING_STR : QString := [80, 105, 110, 103]

/-- One registered listener (`ClientInfo`, the element type of `m_clients`).
`Server.h` is not among the sources: the fields are those that `Server.cpp`
uses, and a time is a number of seconds without an upper bound. -/
structure ClientInfo where
  Address : QHostAddress
  Port : Nat
  LastPing : Nat
deriving DecidableEq, Repr

/-- The registry key of an entry. -/
def ClientInfo.endpoint (c : ClientInfo) : QHostAddress × Nat :=
  (c.Address, c.Port)

/-- The state of `Server` that the registry code reads and writes. -/
structure Server where
  m_password : QString
  m_clients : List ClientInfo
deriving DecidableEq, Repr

/-! ## Server: datagram dispatch -/

/-- The keepalive loop of `Server::udpSocket_readyRead` (lines 83-90): the first
entry whose address and port equal the sender's gets `LastPing` set, then the
loop breaks. -/
def refreshFirst (senderAddress : QHostAddress) (senderPort now : Nat) :
    List ClientInfo → List ClientInfo
  | [] => []
  | c :: cs =>
    if c.Address = senderAddress ∧ c.Port = senderPort then
      { c with LastPing := now } :: cs
    else
      c :: refreshFirst senderAddress senderPort now cs

/-- `Server::udpSocket_readyRead` for one datagram `dataBuffer` received from
`senderAddress:senderPort` when the clock reads `now`. -/
def udpSocket_readyRead (s : Server) (dataBuffer : QByteArray)
    (senderAddress : QHostAddress) (senderPort now : Nat) : Server :=
  if dataBuffer.length = PING_STR.length ∧ fromLatin1 dataBuffer = PING_STR then
    { s with m_clients := refreshFirst senderAddress senderPort now s.m_clients }
  else if dataBuffer.length = s.m_password.length ∧ fromLatin1 dataBuffer = s.m_password then
    { s with m_clients := s.m_clients ++
        [{ Address := senderAddress, Port := senderPort, LastPing := now }] }
  else
    s

/-! ## Server: eviction sweep -/

/-- The loop of `Server::clientDisconnectionTimer_timeout` (lines 125-140) with
the clock reading `currentTime` at every iteration and
`interval = CLIENT_DISCONNECTION_TIMER_INTERVAL_SEC` (declared in `Server.h`). -/
def sweepLoop (interval currentTime : Nat) : List ClientInfo → List ClientInfo
  | [] => []
  | c :: cs =>
    if currentTime > c.LastPing + interval then
      sweepLoop interval currentTime cs
    else
      c :: sweepLoop interval currentTime cs

/-- `Server::clientDisconnectionTimer_timeout`. -/
def clientDisconnectionTimer_timeout (interval : Nat) (s : Server) (currentTime : Nat) :
    Server :=
  { s with m_clients := sweepLoop interval currentTime s.m_clients }

/-! ## Server: runs -/

/-- What can happen to the server: a datagram arrives or the sweep timer fires. -/
inductive ServerEvent where
  | datagram (dataBuffer : QByteArray) (senderAddress : QHostAddress)
      (senderPort now : Nat)
  | sweep (now : Nat)
deriving DecidableEq, Repr

/-- One event applied to the server. -/
def serverStep (interval : Nat) (s : Server) : ServerEvent → Server
  | .datagram d a p t => udpSocket_readyRead s d a p t
  | .sweep t => clientDisconnectionTimer_timeout interval s t

/-- A sequence of events applied in order. -/
def serverRun (interval : Nat) (s : Server) (evs : List ServerEvent) : Server :=
  evs.foldl (serverStep interval) s

/-- The keys of the registry, in order. -/
def endpoints (l : List ClientInfo) : List (QHostAddress × Nat) :=
  l.map ClientInfo.endpoint

/-! ## Client: data model -/

/-- The value an `int` holds after a wider result is stored into it
(two's complement, 32 bits). -/
def wrapInt32 (x : Int) : Int :=
  (x + 2147483648) % 4294967296 - 2147483648

/-- `Client::OPUS_CHANNEL_COUNT`. -/
def OPUS_CHANNEL_COUNT : Int := 1

/-- The value of `sizeof(opus_int16)`. -/
def sizeof_opus_int16 : Int := 2

/-- `paNoError` (also `OPUS_OK`). -/
def paNoError : Int := 0

/-- Modelled from the spec: `PlaybackAudioGenerator` (its header and source are
not among the sources), the ring buffer between the network thread and the
audio callback. The state is the PCM bytes pushed and not yet pulled. -/
structure PlaybackAudioGenerator where
  pending : List Nat
deriving DecidableEq, Repr

/-- Modelled from the spec: `PlaybackAudioGenerator::write` (not among the
sources) pushes the bytes into the ring buffer. -/
def PlaybackAudioGenerator.write (g : PlaybackAudioGenerator) (data : List Nat) :
    PlaybackAudioGenerator :=
  { pending := g.pending ++ data }

/-- A `PaStream*` that is not null: whether `Pa_StartStream` was called on it. -/
structure PaStream where
  started : Bool
deriving DecidableEq, Repr

/-- The recording file of a session: the directory and the session id its name
is built from (`QDir{dir}.filePath(QString::number(id) + ".pcm")`), whether it
is open and the bytes written to it. -/
structure QFile where
  dir : QString
  sessionId : Nat
  isOpen : Bool
  written : List Nat
deriving DecidableEq, Repr

/-- `Client::VoiceSession`; `D` is the state of an Opus decoder, `none` is a
null pointer. -/
structure VoiceSession (D : Type) where
  Id : Nat
  AudioDecoder : Option D
  AudioGenerator : PlaybackAudioGenerator
  AudioStream : Option PaStream
  AudioSaveFile : QFile
  ListenEnabled : Bool
  SaveEnabled : Bool
deriving DecidableEq, Repr

/-- What the client does that is visible outside its fields, in the order it
happens. -/
inductive ClientEvent where
  | sessionLookup (sessionId : Nat)
  | decoderCreate (sessionId : Nat)
  | streamOpen (sessionId : Nat)
  | streamStart (sessionId : Nat)
  | newVoiceSession (sessionId : Nat)
  | decode (sessionId : Nat) (data : QByteArray) (len : Nat)
deriving DecidableEq, Repr

/-- The fields of `Client` that the voice pipeline reads and writes, and the
record of its calls (`trace`). -/
structure Client (D : Type) where
  m_decodedVoicePacketsNb : Int
  m_decodedVoicePacketsBytesNb : Int
  m_decodingErrorsNb : Int
  m_voiceSessions : List (Nat × VoiceSession D)
  m_audioSavePath : QString
  trace : List ClientEvent
deriving DecidableEq, Repr

/-- The libraries the client calls. `opus_decoder_create` and
`Pa_OpenDefaultStream` are given per session id being created: the decoder and
the error code, and whether a stream was opened. `opus_decode` gets the
decoder, the bytes of the packet buffer it may read and the length it is told,
and gives the result, the bytes of the `pcm` array by offset, and the decoder
afterwards. -/
structure Env (D : Type) where
  opus_decoder_create : Nat → Option D × Int
  Pa_OpenDefaultStream : Nat → Bool
  opus_decode : Option D → QByteArray → Nat → Int × (Nat → Nat) × Option D

/-! ## Client: the session table (`QHash<quint64, VoiceSession*>`) -/

/-- `QHash::find`: the session stored under `sessionId`. -/
def findSession {D : Type} (sessionId : Nat) :
    List (Nat × VoiceSession D) → Option (VoiceSession D)
  | [] => none
  | (k, v) :: rest => if k = sessionId then some v else findSession sessionId rest

/-- `QHash::insert`: replaces the value of an existing key, adds the key
otherwise. -/
def insertSession {D : Type} (sessionId : Nat) (v : VoiceSession D) :
    List (Nat × VoiceSession D) → List (Nat × VoiceSession D)
  | [] => [(sessionId, v)]
  | (k, w) :: rest =>
    if k = sessionId then (k, v) :: rest else (k, w) :: insertSession sessionId v rest

/-- A write through the `VoiceSession*` that `find` gave for `sessionId`. -/
def modifySession {D : Type} (sessionId : Nat) (f : VoiceSession D → VoiceSession D) :
    List (Nat × VoiceSession D) → List (Nat × VoiceSession D)
  | [] => []
  | (k, w) :: rest =>
    if k = sessionId then (k, f w) :: rest else (k, w) :: modifySession sessionId f rest

/-! ## Client: `QDataStream` over the datagram -/

/-- `QDataStream::readBlock` on a `QBuffer`: up to `len` bytes are read and
consumed; fewer when the buffer ends. -/
def readBlock (stream : QByteArray) (len : Nat) : QByteArray × QByteArray :=
  (stream.take len, stream.drop len)

/-- Big-endian value of a block of bytes (`qbswap` on a little-endian host). -/
def beValue (bytes : QByteArray) : Nat :=
  bytes.foldl (fun acc b => acc * 256 + b % 256) 0

/-- The `operator>>` of `QDataStream` for an unsigned integer of `width`
bytes: the big-endian value when `width` bytes were read, 0 on a short read
(the bytes read are consumed all the same). -/
def readUInt (width : Nat) (stream : QByteArray) : Nat × QByteArray :=
  ((if (readBlock stream width).1.length = width then beValue (readBlock stream width).1
    else 0),
   (readBlock stream width).2)

/-- `QDataStream::readRawData(voicePacketBuffer, len)`: the bytes read
overwrite the start of the packet buffer, the rest of the buffer keeps what it
held. -/
def readRawData (stream voicePacketBuffer : QByteArray) (len : Nat) :
    QByteArray × QByteArray :=
  ((readBlock stream len).1 ++ voicePacketBuffer.drop (readBlock stream len).1.length,
   (readBlock stream len).2)

/-! ## Client: the voice pipeline -/

/-- The first `n` bytes of the `pcm` array. -/
def pcmBytes (pcm : Nat → Nat) (n : Nat) : List Nat :=
  (List.range n).map pcm

/-- `Client::updateVoiceSessionList`: the session returned and the client
afterwards. -/
def updateVoiceSessionList {D : Type} (env : Env D) (c : Client D) (sessionId : Nat) :
    VoiceSession D × Client D :=
  match findSession sessionId c.m_voiceSessions with
  | none =>
    let opusResult := (env.opus_decoder_create sessionId).2
    let opened := env.Pa_OpenDefaultStream sessionId
    let failed := opusResult ≠ paNoError ∨ opened = false
    let voiceSession : VoiceSession D :=
      { Id := sessionId
        AudioDecoder := (env.opus_decoder_create sessionId).1
        AudioGenerator := { pending := [] }
        AudioStream := if opened then some { started := !decide failed } else none
        AudioSaveFile :=
          { dir := c.m_audioSavePath, sessionId := sessionId, isOpen := false, written := [] }
        ListenEnabled := false
        SaveEnabled := false }
    (voiceSession,
     { c with
       m_voiceSessions := insertSession sessionId voiceSession c.m_voiceSessions
       trace := c.trace ++
         ([.sessionLookup sessionId, .decoderCreate sessionId, .streamOpen sessionId] ++
          (if failed then [] else [.streamStart sessionId]) ++
          [.newVoiceSession sessionId]) })
  | some voiceSession =>
    (voiceSession, { c with trace := c.trace ++ [.sessionLookup sessionId] })

/-- The body of the loop of `Client::decodeVoiceDataStream` after the three
reads (lines 197-217): `voicePacketBuffer` is the packet buffer after
`readRawData`. -/
def decodeRecord {D : Type} (env : Env D) (c : Client D)
    (voicePacketLength voiceSessionId : Nat) (voicePacketBuffer : QByteArray) : Client D :=
  let voiceSession := (updateVoiceSessionList env c voiceSessionId).1
  let c1 := (updateVoiceSessionList env c voiceSessionId).2
  if voiceSession.ListenEnabled || voiceSession.SaveEnabled then
    let out := env.opus_decode voiceSession.AudioDecoder
      (voicePacketBuffer.take voicePacketLength) voicePacketLength
    let opusResult := out.1
    let c2 : Client D :=
      { c1 with
        m_voiceSessions := modifySession voiceSessionId
          (fun v => { v with AudioDecoder := out.2.2 }) c1.m_voiceSessions
        trace := c1.trace ++
          [.decode voiceSession.Id (voicePacketBuffer.take voicePacketLength)
            voicePacketLength] }
    if opusResult ≤ 0 then
      { c2 with m_decodingErrorsNb := wrapInt32 (c2.m_decodingErrorsNb + 1) }
    else
      let decodedBytesNb := opusResult * OPUS_CHANNEL_COUNT * sizeof_opus_int16
      { c2 with
        m_decodedVoicePacketsNb := wrapInt32 (c2.m_decodedVoicePacketsNb + 1)
        m_decodedVoicePacketsBytesNb :=
          wrapInt32 (c2.m_decodedVoicePacketsBytesNb + decodedBytesNb)
        m_voiceSessions := modifySession voiceSessionId
          (fun v => { v with
            AudioGenerator := v.AudioGenerator.write (pcmBytes out.2.1 decodedBytesNb.toNat) })
          c2.m_voiceSessions }
  else
    c1

/-- One iteration of the loop of `Client::decodeVoiceDataStream` (lines
187-217): the client, the unread part of the datagram and the packet buffer
afterwards. -/
def decodeStep {D : Type} (env : Env D) (c : Client D)
    (voiceDataStream voicePacketBuffer : QByteArray) :
    Client D × QByteArray × QByteArray :=
  let voicePacketLength := (readUInt 2 voiceDataStream).1
  let s1 := (readUInt 2 voiceDataStream).2
  let voiceSessionId := (readUInt 8 s1).1
  let s2 := (readUInt 8 s1).2
  let buffer := (readRawData s2 voicePacketBuffer voicePacketLength).1
  let s3 := (readRawData s2 voicePacketBuffer voicePacketLength).2
  (decodeRecord env c voicePacketLength voiceSessionId buffer, s3, buffer)

/-- The loop of `Client::decodeVoiceDataStream`, at most `fuel` iterations;
`none` when the datagram is not exhausted by then. An empty stream is
`atEnd()`. -/
def decodeLoop {D : Type} (env : Env D) :
    Nat → Client D → QByteArray → QByteArray → Option (Client D)
  | 0, c, voiceDataStream, _ => if voiceDataStream = [] then some c else none
  | fuel + 1, c, voiceDataStream, voicePacketBuffer =>
    if voiceDataStream = [] then some c
    else
      decodeLoop env fuel (decodeStep env c voiceDataStream voicePacketBuffer).1
        (decodeStep env c voiceDataStream voicePacketBuffer).2.1
        (decodeStep env c voiceDataStream voicePacketBuffer).2.2

/-- `Client::decodeVoiceDataStream` on the datagram `voiceDataStream`;
`voicePacketBuffer` is what the freshly allocated packet buffer holds (its
length is `voicePacketBufferReserveSize`). Every iteration consumes a byte, so
the length of the datagram bounds the number of iterations. -/
def decodeVoiceDataStream {D : Type} (env : Env D) (c : Client D)
    (voiceDataStream voicePacketBuffer : QByteArray) : Option (Client D) :=
  decodeLoop env voiceDataStream.length c voiceDataStream voicePacketBuffer

/-! ## Client: well-formed voice-frame records -/

/-- One record of a voice-frame datagram: the session id and the payload. -/
structure VoiceRecord where
  sessionId : Nat
  payload : QByteArray
deriving DecidableEq, Repr

/-- Big-endian bytes of `n`, `width` of them. -/
def beBytes : Nat → Nat → QByteArray
  | 0, _ => []
  | width + 1, n => beBytes width (n / 256) ++ [n % 256]

/-- The wire form of a record: 16-bit length, 64-bit session id, payload. -/
def VoiceRecord.encode (r : VoiceRecord) : QByteArray :=
  beBytes 2 r.payload.length ++ beBytes 8 r.sessionId ++ r.payload

/-- A record is well-formed when its length fits 16 bits and its id 64 bits. -/
def VoiceRecord.WellFormed (r : VoiceRecord) : Prop :=
  r.payload.length < 65536 ∧ r.sessionId < 18446744073709551616

/-- The datagram made of the records in order. -/
def encodeRecords : List VoiceRecord → QByteArray
  | [] => []
  | r :: rs => r.encode ++ encodeRecords rs

/-- Whether the session stored under `sessionId` has a capability switched
on; `false` when there is none. -/
def sessionEnabled {D : Type} (c : Client D) (sessionId : Nat) : Bool :=
  match findSession sessionId c.m_voiceSessions with
  | some v => v.ListenEnabled || v.SaveEnabled
  | none => false

/-- The decoder invocations in a trace. -/
def decodeEvents (t : List ClientEvent) : List ClientEvent :=
  t.filter (fun e => match e with | .decode _ _ _ => true | _ => false)

/-- The session lookups in a trace. -/
def lookupEvents (t : List ClientEvent) : List ClientEvent :=
  t.filter (fun e => match e with | .sessionLookup _ => true | _ => false)

/-- Every session is stored under its own `Id`. -/
def KeysMatchIds {D : Type} (table : List (Nat × VoiceSession D)) : Prop :=
  ∀ kv ∈ table, kv.2.Id = kv.1

/-- The keys of the session table, in order. -/
def tableKeys {D : Type} (table : List (Nat × VoiceSession D)) : List Nat :=
  table.map Prod.fst

/-- The packet buffer after the payload of a record was read into it. -/
def bufferAfter (r : VoiceRecord) (voicePacketBuffer : QByteArray) : QByteArray :=
  r.payload ++ voicePacketBuffer.drop r.payload.length

/-- The loop body applied to the records of a list in order. -/
def decodeRecords {D : Type} (env : Env D) :
    Client D → List VoiceRecord → QByteArray → Client D
  | c, [], _ => c
  | c, r :: rs, voicePacketBuffer =>
    decodeRecords env
      (decodeRecord env c r.payload.length r.sessionId (bufferAfter r voicePacketBuffer))
      rs (bufferAfter r voicePacketBuffer)

/-- What `opus_decode` gives for the record that `decodeRecord` is applied to:
the call of line 201 on the decoder of the session that
`updateVoiceSessionList` returned. -/
def decodeOutput {D : Type} (env : Env D) (c : Client D)
    (voicePacketLength voiceSessionId : Nat) (voicePacketBuffer : QByteArray) :
    Int × (Nat → Nat) × Option D :=
  env.opus_decode (updateVoiceSessionList env c voiceSessionId).1.AudioDecoder
    (voicePacketBuffer.take voicePacketLength) voicePacketLength

/-- An `int` value: between `INT_MIN` and `INT_MAX`. -/
def InIntRange (x : Int) : Prop :=
  -2147483648 ≤ x ∧ x ≤ 2147483647

/-- An Opus library for examples: decoders are counters of the packets they
decoded; a packet starting with byte 255 is corrupt (`OPUS_INVALID_PACKET`),
any other packet decodes to a frame of 960 samples whose bytes are the length
told and the decoder count in turn. -/
def exampleEnv : Env Nat where
  opus_decoder_create := fun _ => (some 0, 0)
  Pa_OpenDefaultStream := fun _ => true
  opus_decode := fun d data len =>
    if data.head? = some 255 then (-4, fun _ => 0, d)
    else (960, fun i => if i % 2 = 0 then len % 256 else d.getD 0 % 256, d.map (· + 1))

/-- A client with no session and all counters at zero. -/
def emptyClient : Client Nat :=
  { m_decodedVoicePacketsNb := 0, m_decodedVoicePacketsBytesNb := 0,
    m_decodingErrorsNb := 0, m_voiceSessions := [], m_audioSavePath := [],
    trace := [] }

/-- Session 7 as `updateVoiceSessionList` creates it under `exampleEnv`, with
listening switched on afterwards. -/
def listeningSession : VoiceSession Nat :=
  { Id := 7, AudioDecoder := some 0, AudioGenerator := { pending := [] },
    AudioStream := some { started := true },
    AudioSaveFile := { dir := [], sessionId := 7, isOpen := false, written := [] },
    ListenEnabled := true, SaveEnabled := false }

/-- A client whose only session is session 7, listened to. -/
def listeningClient : Client Nat :=
  { emptyClient with m_voiceSessions := [(7, listeningSession)] }

/-- The client `listeningClient` after 1118481 decoded frames of 960 samples:
2147483520 decoded bytes. -/
def longRunningClient : Client Nat :=
  { listeningClient with
    m_decodedVoicePacketsNb := 1118481
    m_decodedVoicePacketsBytesNb := 2147483520
    m_voiceSessions := [(7, { listeningSession with AudioDecoder := some 1118481 })] }

/-! ## Client: capabilities and the audio callback -/

/-- `Client::VoiceSessionCapability`. -/
inductive VoiceSessionCapability where
  | Listen
  | Save
deriving DecidableEq, Repr

/-- `Client::setVoiceSessionCapability`. -/
def setVoiceSessionCapability {D : Type} (c : Client D) (sessionId : Nat)
    (capability : VoiceSessionCapability) (enabled : Bool) : Client D :=
  match findSession sessionId c.m_voiceSessions with
  | some _ =>
    match capability with
    | .Listen =>
      { c with
        m_voiceSessions := modifySession sessionId
          (fun v => { v with ListenEnabled := enabled }) c.m_voiceSessions }
    | .Save =>
      { c with
        m_voiceSessions := modifySession sessionId
          (fun v => { v with SaveEnabled := enabled }) c.m_voiceSessions }
  | none => c

/-- Modelled from the spec: `PlaybackAudioGenerator::read` (not among the
sources) pulls `len` bytes from the ring buffer, zero-filled on underrun. -/
def PlaybackAudioGenerator.read (g : PlaybackAudioGenerator) (len : Nat) :
    List Nat × PlaybackAudioGenerator :=
  (g.pending.take len ++ List.replicate (len - (g.pending.take len).length) 0,
   { pending := g.pending.drop len })

/-- `QFile::open(QIODevice::WriteOnly)` on a file that is not open;
`succeeds` is what the call returns: the file is open afterwards when it is
`true` and stays closed when it is `false` (a directory that is missing or
cannot be written to). -/
def QFile.open (f : QFile) (succeeds : Bool) : QFile :=
  { f with isOpen := succeeds }

/-- `QFile::write`: the bytes are added to an open file, a file that is not
open takes nothing. -/
def QFile.write (f : QFile) (data : List Nat) : QFile :=
  if f.isOpen then { f with written := f.written ++ data } else f

/-- The function `audioStreamCallback` for the session `voiceSession` passed
as `userData`: the value returned, the `output` buffer (of
`frameCount * sizeof(opus_int16)` bytes) and the session afterwards.
`openSucceeds` is the result that `QFile::open` has if line 45 calls it; the
callback does not look at it. `frameCount` is the frame size the stream was
opened with, so the product is not wrapped. -/
def audioStreamCallback {D : Type} (voiceSession : VoiceSession D) (frameCount : Nat)
    (openSucceeds : Bool) : Int × List Nat × VoiceSession D :=
  let audioBufferSize := frameCount * sizeof_opus_int16.toNat
  let output := (voiceSession.AudioGenerator.read audioBufferSize).1
  let v1 : VoiceSession D :=
    { voiceSession with AudioGenerator := (voiceSession.AudioGenerator.read audioBufferSize).2 }
  let v2 : VoiceSession D :=
    if v1.SaveEnabled then
      { v1 with
        AudioSaveFile :=
          (if v1.AudioSaveFile.isOpen = false then v1.AudioSaveFile.open openSucceeds
           else v1.AudioSaveFile).write output }
    else v1
  (0, (if v2.ListenEnabled = false then List.replicate audioBufferSize 0 else output), v2)

/-- Session 7 with recording switched on, listening off, and the PCM bytes
1, 2, 3 in its ring buffer; its recording file was never opened. -/
def recordingSession : VoiceSession Nat :=
  { listeningSession with
    AudioGenerator := { pending := [1, 2, 3] }
    ListenEnabled := false
    SaveEnabled := true }

/-! ## Client: runs -/

/-- A call made on the client. -/
inductive ClientOp where
  | datagram (voiceDataStream voicePacketBuffer : QByteArray)
  | ensure (sessionId : Nat)
  | setCapability (sessionId : Nat) (capability : VoiceSessionCapability) (enabled : Bool)
deriving DecidableEq, Repr

/-- One call: `decodeVoiceDataStream`, `updateVoiceSessionList` or
`setVoiceSessionCapability`. -/
def clientStep {D : Type} (env : Env D) (c : Client D) : ClientOp → Option (Client D)
  | .datagram s b => decodeVoiceDataStream env c s b
  | .ensure id => some (updateVoiceSessionList env c id).2
  | .setCapability id cap en => some (setVoiceSessionCapability c id cap en)

/-- A sequence of calls in order. -/
def clientRun {D : Type} (env : Env D) : Client D → List ClientOp → Option (Client D)
  | c, [] => some c
  | c, op :: ops =>
    match clientStep env c op with
    | some c2 => clientRun env c2 ops
    | none => none

/-- An environment in which no decoder can be created (`OPUS_ALLOC_FAIL`, a
null decoder) and no stream opened; `opus_decode` is as in `exampleEnv`. -/
def failingEnv : Env Nat where
  opus_decoder_create := fun _ => (none, -7)
  Pa_OpenDefaultStream := fun _ => false
  opus_decode := exampleEnv.opus_decode

/-! ## Client: the registration datagram -/

/-- `QString::toUtf8` (what `toStdString` gives): UTF-16 code units to UTF-8
bytes; a surrogate pair is one code point of four bytes, a lone surrogate
becomes `?`. -/
def toUtf8 : QString → QByteArray
  | [] => []
  | [u] =>
    if u < 128 then [u]
    else if u < 2048 then [192 + u / 64, 128 + u % 64]
    else if 55296 ≤ u ∧ u < 57344 then [63]
    else [224 + u / 4096, 128 + u / 64 % 64, 128 + u % 64]
  | u :: l :: rest =>
    if u < 128 then u :: toUtf8 (l :: rest)
    else if u < 2048 then [192 + u / 64, 128 + u % 64] ++ toUtf8 (l :: rest)
    else if 55296 ≤ u ∧ u < 56320 then
      if 56320 ≤ l ∧ l < 57344 then
        [240 + (65536 + (u - 55296) * 1024 + (l - 56320)) / 262144,
         128 + (65536 + (u - 55296) * 1024 + (l - 56320)) / 4096 % 64,
         128 + (65536 + (u - 55296) * 1024 + (l - 56320)) / 64 % 64,
         128 + (65536 + (u - 55296) * 1024 + (l - 56320)) % 64] ++ toUtf8 rest
      else 63 :: toUtf8 (l :: rest)
    else if 56320 ≤ u ∧ u < 57344 then 63 :: toUtf8 (l :: rest)
    else [224 + u / 4096, 128 + u / 64 % 64, 128 + u % 64] ++ toUtf8 (l :: rest)

/-- `QByteArray{ const char* }`: the bytes up to the first NUL. -/
def fromCString (bytes : QByteArray) : QByteArray :=
  bytes.takeWhile (fun b => b ≠ 0)

/-- The datagram that `Client::registerToServer` sends for
`m_serverPassword` (line 124). -/
def registrationData (m_serverPassword : QString) : QByteArray :=
  fromCString (toUtf8 m_serverPassword)

/-- A password of ASCII characters other than NUL. -/
def IsAsciiText (p : QString) : Prop :=
  ∀ u ∈ p, 0 < u ∧ u < 128

/-! ## Server: lemmas -/

theorem fromLatin1_length (data : QByteArray) : (fromLatin1 data).length = data.length := by
  simp [fromLatin1]

theorem refreshFirst_length (a : QHostAddress) (p t : Nat) (l : List ClientInfo) :
    (refreshFirst a p t l).length = l.length := by
  induction l with
  | nil => rfl
  | cons c cs ih =>
    unfold refreshFirst
    split <;> simp [ih]

theorem refreshFirst_endpoints (a : QHostAddress) (p t : Nat) (l : List ClientInfo) :
    endpoints (refreshFirst a p t l) = endpoints l := by
  induction l with
  | nil => rfl
  | cons c cs ih =>
    unfold refreshFirst
    split
    · simp [endpoints, ClientInfo.endpoint]
    · simpa [endpoints] using ih

theorem refreshFirst_absent (a : QHostAddress) (p t : Nat) (l : List ClientInfo)
    (h : ∀ c ∈ l, ¬ (c.Address = a ∧ c.Port = p)) : refreshFirst a p t l = l := by
  induction l with
  | nil => rfl
  | cons c cs ih =>
    unfold refreshFirst
    rw [if_neg (h c (List.mem_cons_self c cs))]
    rw [ih (fun d hd => h d (List.mem_cons_of_mem c hd))]

theorem refreshFirst_present (a : QHostAddress) (p t : Nat) (l : List ClientInfo)
    (h : ∃ c ∈ l, c.Address = a ∧ c.Port = p) :
    ∃ c ∈ refreshFirst a p t l, c.Address = a ∧ c.Port = p ∧ c.LastPing = t := by
  induction l with
  | nil => simp at h
  | cons c cs ih =>
    unfold refreshFirst
    by_cases hc : c.Address = a ∧ c.Port = p
    · rw [if_pos hc]
      exact ⟨{ c with LastPing := t }, List.mem_cons_self _ _, hc.1, hc.2, rfl⟩
    · rw [if_neg hc]
      obtain ⟨d, hd, hda⟩ := h
      rcases List.mem_cons.mp hd with rfl | hd
      · exact absurd hda hc
      · obtain ⟨e, he, hea⟩ := ih ⟨d, hd, hda⟩
        exact ⟨e, List.mem_cons_of_mem _ he, hea⟩

theorem refreshFirst_other (a : QHostAddress) (p t : Nat) (l : List ClientInfo)
    (i : Nat) (c : ClientInfo) (hi : l[i]? = some c) (hc : c.endpoint ≠ (a, p)) :
    (refreshFirst a p t l)[i]? = some c := by
  induction l generalizing i with
  | nil => simp at hi
  | cons d ds ih =>
    unfold refreshFirst
    cases i with
    | zero =>
      simp only [List.getElem?_cons_zero, Option.some.injEq] at hi
      subst hi
      have : ¬ (d.Address = a ∧ d.Port = p) := by
        rintro ⟨h1, h2⟩
        exact hc (by simp [ClientInfo.endpoint, h1, h2])
      rw [if_neg this]
      simp
    | succ j =>
      simp only [List.getElem?_cons_succ] at hi
      split
      · simpa using hi
      · simpa using ih j hi

theorem sweepLoop_eq_filter (interval now : Nat) (l : List ClientInfo) :
    sweepLoop interval now l = l.filter (fun c => decide (now ≤ c.LastPing + interval)) := by
  induction l with
  | nil => rfl
  | cons c cs ih =>
    unfold sweepLoop
    by_cases h : now > c.LastPing + interval
    · rw [if_pos h, ih, List.filter_cons_of_neg (by simpa using h)]
    · rw [if_neg h, ih, List.filter_cons_of_pos (by simpa using h)]

theorem readyRead_ping (s : Server) (data : QByteArray) (a : QHostAddress) (p t : Nat)
    (h : fromLatin1 data = PING_STR) :
    udpSocket_readyRead s data a p t =
      { s with m_clients := refreshFirst a p t s.m_clients } := by
  have hl : data.length = PING_STR.length := by rw [← h, fromLatin1_length]
  unfold udpSocket_readyRead
  rw [if_pos ⟨hl, h⟩]

theorem readyRead_register (s : Server) (data : QByteArray) (a : QHostAddress) (p t : Nat)
    (hping : s.m_password ≠ PING_STR) (h : fromLatin1 data = s.m_password) :
    udpSocket_readyRead s data a p t =
      { s with m_clients := s.m_clients ++ [{ Address := a, Port := p, LastPing := t }] } := by
  have hl : data.length = s.m_password.length := by rw [← h, fromLatin1_length]
  unfold udpSocket_readyRead
  rw [if_neg (fun hp => hping (h ▸ hp.2)), if_pos ⟨hl, h⟩]

theorem readyRead_reject (s : Server) (data : QByteArray) (a : QHostAddress) (p t : Nat)
    (hping : fromLatin1 data ≠ PING_STR) (hpw : fromLatin1 data ≠ s.m_password) :
    udpSocket_readyRead s data a p t = s := by
  unfold udpSocket_readyRead
  rw [if_neg (fun hp => hping hp.2), if_neg (fun hp => hpw hp.2)]

/-! ## Server: the registry properties -/

/-- C1, as stated, fails when the shared secret is the keepalive sentinel: a
server whose password is "Ping" and whose registry is empty receives the
datagram "Ping" (its secret, byte for byte) from 1:5000 at time 7 and the
registry stays empty. -/
theorem registration_present_counterexample :
    fromLatin1 [80, 105, 110, 103] = (Server.mk PING_STR []).m_password ∧
    (udpSocket_readyRead (Server.mk PING_STR []) [80, 105, 110, 103] 1 5000 7).m_clients
      = [] := by
  decide

/-- C1 (amended): when the shared secret differs from the keepalive sentinel,
a datagram whose bytes are exactly the secret leaves an entry for the sender's
endpoint whose `LastPing` is the receipt time. -/
theorem registration_present (s : Server) (data : QByteArray) (a : QHostAddress)
    (p t : Nat) (hping : s.m_password ≠ PING_STR) (h : fromLatin1 data = s.m_password) :
    ∃ c ∈ (udpSocket_readyRead s data a p t).m_clients,
      c.Address = a ∧ c.Port = p ∧ c.LastPing = t := by
  rw [readyRead_register s data a p t hping h]
  exact ⟨{ Address := a, Port := p, LastPing := t }, by simp, rfl, rfl, rfl⟩

theorem registration_present_witness :
    (Server.mk [115, 51] [⟨9, 1000, 3⟩]).m_password ≠ PING_STR ∧
    fromLatin1 [115, 51] = (Server.mk [115, 51] [⟨9, 1000, 3⟩]).m_password ∧
    ∃ c ∈ (udpSocket_readyRead (Server.mk [115, 51] [⟨9, 1000, 3⟩]) [115, 51] 1 5000 7).m_clients,
      c.Address = 1 ∧ c.Port = 5000 ∧ c.LastPing = 7 :=
  ⟨by decide, by decide,
    registration_present (Server.mk [115, 51] [⟨9, 1000, 3⟩]) [115, 51] 1 5000 7
      (by decide) (by decide)⟩

/-- C2: the eviction sweep keeps exactly the entries with
`now - LastPing <= interval`, in order and unmodified, removes every entry
with `now - LastPing > interval`, and leaves the password alone; with interval
2 an entry last seen at 0 survives the sweeps at 1 and at 2 and is removed by
the sweep at 3. -/
theorem sweep_keeps_exactly_live (interval : Nat) (s : Server) (now : Nat) :
    (clientDisconnectionTimer_timeout interval s now).m_clients
      = s.m_clients.filter (fun c => decide ((now : Int) - (c.LastPing : Int) ≤ (interval : Int))) ∧
    (∀ c ∈ s.m_clients, (now : Int) - (c.LastPing : Int) > (interval : Int) →
      c ∉ (clientDisconnectionTimer_timeout interval s now).m_clients) ∧
    (∀ c ∈ s.m_clients, (now : Int) - (c.LastPing : Int) ≤ (interval : Int) →
      c ∈ (clientDisconnectionTimer_timeout interval s now).m_clients) ∧
    (clientDisconnectionTimer_timeout interval s now).m_password = s.m_password ∧
    (∀ (pw : QString) (a : QHostAddress) (p : Nat),
      clientDisconnectionTimer_timeout 2 ⟨pw, [⟨a, p, 0⟩]⟩ 1 = ⟨pw, [⟨a, p, 0⟩]⟩ ∧
      clientDisconnectionTimer_timeout 2 ⟨pw, [⟨a, p, 0⟩]⟩ 2 = ⟨pw, [⟨a, p, 0⟩]⟩ ∧
      clientDisconnectionTimer_timeout 2 ⟨pw, [⟨a, p, 0⟩]⟩ 3 = ⟨pw, []⟩) := by
  have hf : (clientDisconnectionTimer_timeout interval s now).m_clients
      = s.m_clients.filter
          (fun c => decide ((now : Int) - (c.LastPing : Int) ≤ (interval : Int))) := by
    show sweepLoop interval now s.m_clients = _
    rw [sweepLoop_eq_filter]
    congr 1
    funext c
    congr 1
    apply propext
    omega
  refine ⟨hf, ?_, ?_, rfl, ?_⟩
  · intro c _ hgt hmem
    rw [hf, List.mem_filter] at hmem
    have := of_decide_eq_true hmem.2
    omega
  · intro c hc hle
    rw [hf, List.mem_filter]
    exact ⟨hc, decide_eq_true hle⟩
  · intro pw a p
    exact ⟨rfl, rfl, rfl⟩

/-- C3, as stated, fails: from the empty registry of a server with password
"s3", two registration datagrams from 1:5000 (at times 0 and 1) give a
registry of two entries with the same endpoint; the second registration made
the registry longer. -/
theorem registry_unique_counterexample :
    (serverRun 2 ⟨[115, 51], []⟩
        [.datagram [115, 51] 1 5000 0, .datagram [115, 51] 1 5000 1]).m_clients
      = [⟨1, 5000, 0⟩, ⟨1, 5000, 1⟩] ∧
    ¬ (endpoints (serverRun 2 ⟨[115, 51], []⟩
        [.datagram [115, 51] 1 5000 0, .datagram [115, 51] 1 5000 1]).m_clients).Nodup ∧
    (serverRun 2 ⟨[115, 51], []⟩
        [.datagram [115, 51] 1 5000 0, .datagram [115, 51] 1 5000 1]).m_clients.length
      ≠ (serverRun 2 ⟨[115, 51], []⟩ [.datagram [115, 51] 1 5000 0]).m_clients.length := by
  decide

theorem sweepLoop_endpoints_nodup (interval now : Nat) (l : List ClientInfo)
    (h : (endpoints l).Nodup) : (endpoints (sweepLoop interval now l)).Nodup := by
  rw [sweepLoop_eq_filter]
  exact List.Nodup.sublist (List.Sublist.map _ (List.filter_sublist l)) h

theorem readyRead_other_endpoints (s : Server) (data : QByteArray) (a : QHostAddress)
    (p t : Nat) (hpw : fromLatin1 data ≠ s.m_password) :
    endpoints (udpSocket_readyRead s data a p t).m_clients = endpoints s.m_clients := by
  by_cases hping : fromLatin1 data = PING_STR
  · rw [readyRead_ping s data a p t hping]
    exact refreshFirst_endpoints a p t s.m_clients
  · rw [readyRead_reject s data a p t hping hpw]

/-- C3 (amended): for a secret different from "Ping", a registration datagram
always appends the entry (sender, receipt time) at the end of the registry and
leaves the existing entries as they are, so the length grows by one whether or
not the sender already has an entry; the endpoints are pairwise distinct
afterwards exactly when they were before and the sender had no entry. Sweeps
and datagrams that are not the secret keep the endpoints pairwise distinct. -/
theorem registration_appends (interval : Nat) (s : Server) (data : QByteArray)
    (a : QHostAddress) (p t : Nat) (hping : s.m_password ≠ PING_STR)
    (h : fromLatin1 data = s.m_password) :
    (udpSocket_readyRead s data a p t).m_clients
      = s.m_clients ++ [{ Address := a, Port := p, LastPing := t }] ∧
    (udpSocket_readyRead s data a p t).m_clients.length = s.m_clients.length + 1 ∧
    ((endpoints (udpSocket_readyRead s data a p t).m_clients).Nodup ↔
      ((endpoints s.m_clients).Nodup ∧ (a, p) ∉ endpoints s.m_clients)) ∧
    (∀ now, (endpoints s.m_clients).Nodup →
      (endpoints (clientDisconnectionTimer_timeout interval s now).m_clients).Nodup) ∧
    (∀ (d : QByteArray) (b : QHostAddress) (q u : Nat), fromLatin1 d ≠ s.m_password →
      (endpoints s.m_clients).Nodup →
      (endpoints (udpSocket_readyRead s d b q u).m_clients).Nodup) := by
  rw [readyRead_register s data a p t hping h]
  refine ⟨rfl, by simp, ?_, ?_, ?_⟩
  · simp only [endpoints, List.map_append, List.map_cons, List.map_nil,
      ClientInfo.endpoint]
    rw [List.nodup_append]
    simp only [List.nodup_cons, List.not_mem_nil, not_false_eq_true, List.nodup_nil,
      and_self, true_and, List.disjoint_singleton]
  · intro now hn
    exact sweepLoop_endpoints_nodup interval now s.m_clients hn
  · intro d b q u hd hn
    rw [readyRead_other_endpoints s d b q u hd]
    exact hn

theorem registration_appends_witness :
    (Server.mk [115, 51] [⟨1, 5000, 0⟩]).m_password ≠ PING_STR ∧
    fromLatin1 [115, 51] = (Server.mk [115, 51] [⟨1, 5000, 0⟩]).m_password ∧
    (udpSocket_readyRead (Server.mk [115, 51] [⟨1, 5000, 0⟩]) [115, 51] 1 5000 4).m_clients
      = [⟨1, 5000, 0⟩, ⟨1, 5000, 4⟩] :=
  ⟨by decide, by decide,
    (registration_appends 2 (Server.mk [115, 51] [⟨1, 5000, 0⟩]) [115, 51] 1 5000 4
      (by decide) (by decide)).1⟩

/-- C4: a datagram whose bytes are exactly "Ping" keeps the password, the
length of the registry and the sequence of its endpoints; every entry of
another endpoint stays where it is, unchanged; when the sender has an entry,
an entry of the sender has `LastPing` equal to the receipt time afterwards;
when the sender has none, the registry is unchanged. -/
theorem keepalive_refreshes (s : Server) (data : QByteArray) (a : QHostAddress)
    (p t : Nat) (h : fromLatin1 data = PING_STR) :
    (udpSocket_readyRead s data a p t).m_password = s.m_password ∧
    (udpSocket_readyRead s data a p t).m_clients.length = s.m_clients.length ∧
    endpoints (udpSocket_readyRead s data a p t).m_clients = endpoints s.m_clients ∧
    ((∃ c ∈ s.m_clients, c.endpoint = (a, p)) →
      ∃ c ∈ (udpSocket_readyRead s data a p t).m_clients,
        c.endpoint = (a, p) ∧ c.LastPing = t) ∧
    (∀ (i : Nat) (c : ClientInfo), s.m_clients[i]? = some c → c.endpoint ≠ (a, p) →
      (udpSocket_readyRead s data a p t).m_clients[i]? = some c) ∧
    ((∀ c ∈ s.m_clients, c.endpoint ≠ (a, p)) → udpSocket_readyRead s data a p t = s) := by
  rw [readyRead_ping s data a p t h]
  refine ⟨rfl, refreshFirst_length a p t _, refreshFirst_endpoints a p t _, ?_, ?_, ?_⟩
  · rintro ⟨c, hc, hce⟩
    have hce2 : c.Address = a ∧ c.Port = p := by
      simpa [ClientInfo.endpoint] using hce
    obtain ⟨d, hd, h1, h2, h3⟩ := refreshFirst_present a p t s.m_clients ⟨c, hc, hce2⟩
    exact ⟨d, hd, by simp [ClientInfo.endpoint, h1, h2], h3⟩
  · intro i c hi hc
    exact refreshFirst_other a p t s.m_clients i c hi hc
  · intro hab
    have : refreshFirst a p t s.m_clients = s.m_clients := by
      apply refreshFirst_absent
      intro c hc hcc
      exact hab c hc (by simp [ClientInfo.endpoint, hcc.1, hcc.2])
    rw [this]

theorem keepalive_refreshes_witness :
    fromLatin1 [80, 105, 110, 103] = PING_STR ∧
    ∃ c ∈ (udpSocket_readyRead (Server.mk [115, 51] [⟨9, 1000, 3⟩, ⟨1, 5000, 0⟩])
        [80, 105, 110, 103] 1 5000 4).m_clients,
      c.endpoint = (1, 5000) ∧ c.LastPing = 4 :=
  ⟨by decide,
    (keepalive_refreshes (Server.mk [115, 51] [⟨9, 1000, 3⟩, ⟨1, 5000, 0⟩])
      [80, 105, 110, 103] 1 5000 4 (by decide)).2.2.2.1
      ⟨⟨1, 5000, 0⟩, by decide, by decide⟩⟩

/-- C5: a datagram whose bytes are neither "Ping" nor the shared secret (in
length or in content) leaves the server state, and so the registry, exactly
as it was. -/
theorem bad_datagram_ignored (s : Server) (data : QByteArray) (a : QHostAddress)
    (p t : Nat) (hping : fromLatin1 data ≠ PING_STR)
    (hpw : fromLatin1 data ≠ s.m_password) :
    udpSocket_readyRead s data a p t = s :=
  readyRead_reject s data a p t hping hpw

theorem bad_datagram_ignored_witness :
    fromLatin1 [115] ≠ PING_STR ∧
    fromLatin1 [115] ≠ (Server.mk [115, 51] [⟨9, 1000, 3⟩]).m_password ∧
    udpSocket_readyRead (Server.mk [115, 51] [⟨9, 1000, 3⟩]) [115] 1 5000 4
      = Server.mk [115, 51] [⟨9, 1000, 3⟩] :=
  ⟨by decide, by decide,
    bad_datagram_ignored (Server.mk [115, 51] [⟨9, 1000, 3⟩]) [115] 1 5000 4
      (by decide) (by decide)⟩

/-! ## Client: lemmas on the session table -/

theorem findSession_insert_self {D : Type} (id : Nat) (v : VoiceSession D)
    (t : List (Nat × VoiceSession D)) :
    findSession id (insertSession id v t) = some v := by
  induction t with
  | nil => simp [insertSession, findSession]
  | cons kv rest ih =>
    obtain ⟨k, w⟩ := kv
    unfold insertSession
    by_cases h : k = id
    · simp [h, findSession]
    · simp [h, findSession, ih]

theorem findSession_insert_other {D : Type} (id id2 : Nat) (v : VoiceSession D)
    (t : List (Nat × VoiceSession D)) (hne : id2 ≠ id) :
    findSession id2 (insertSession id v t) = findSession id2 t := by
  induction t with
  | nil =>
    have : ¬ id = id2 := fun h => hne h.symm
    simp [insertSession, findSession, this]
  | cons kv rest ih =>
    obtain ⟨k, w⟩ := kv
    have hne2 : ¬ id = id2 := fun h => hne h.symm
    unfold insertSession
    by_cases h : k = id
    · subst h
      rw [if_pos rfl]
      simp only [findSession, if_neg hne2]
    · rw [if_neg h]
      by_cases h2 : k = id2
      · simp only [findSession, if_pos h2]
      · simp only [findSession, if_neg h2]
        exact ih

theorem insertSession_absent {D : Type} (id : Nat) (v : VoiceSession D)
    (t : List (Nat × VoiceSession D)) (h : findSession id t = none) :
    insertSession id v t = t ++ [(id, v)] := by
  induction t with
  | nil => rfl
  | cons kv rest ih =>
    obtain ⟨k, w⟩ := kv
    unfold findSession at h
    by_cases hk : k = id
    · simp [hk] at h
    · simp only [hk, if_false] at h
      unfold insertSession
      simp [hk, ih h]

theorem findSession_none_iff {D : Type} (id : Nat) (t : List (Nat × VoiceSession D)) :
    findSession id t = none ↔ id ∉ tableKeys t := by
  induction t with
  | nil => simp [findSession, tableKeys]
  | cons kv rest ih =>
    obtain ⟨k, w⟩ := kv
    unfold findSession
    by_cases hk : k = id
    · simp [hk, tableKeys]
    · have hk2 : ¬ id = k := fun h => hk h.symm
      simp only [hk, if_false, ih]
      simp [tableKeys, hk2]

theorem findSession_mem {D : Type} (id : Nat) (v : VoiceSession D)
    (t : List (Nat × VoiceSession D)) (h : findSession id t = some v) : (id, v) ∈ t := by
  induction t with
  | nil => simp [findSession] at h
  | cons kv rest ih =>
    obtain ⟨k, w⟩ := kv
    unfold findSession at h
    by_cases hk : k = id
    · simp only [hk, if_true, Option.some.injEq] at h
      simp [hk, h]
    · simp only [hk, if_false] at h
      exact List.mem_cons_of_mem _ (ih h)

theorem findSession_modify_self {D : Type} (id : Nat) (f : VoiceSession D → VoiceSession D)
    (t : List (Nat × VoiceSession D)) :
    findSession id (modifySession id f t) = (findSession id t).map f := by
  induction t with
  | nil => rfl
  | cons kv rest ih =>
    obtain ⟨k, w⟩ := kv
    unfold modifySession
    by_cases h : k = id
    · simp [h, findSession]
    · simp [h, findSession, ih]

theorem findSession_modify_other {D : Type} (id id2 : Nat)
    (f : VoiceSession D → VoiceSession D) (t : List (Nat × VoiceSession D))
    (hne : id2 ≠ id) :
    findSession id2 (modifySession id f t) = findSession id2 t := by
  induction t with
  | nil => rfl
  | cons kv rest ih =>
    obtain ⟨k, w⟩ := kv
    have hne2 : ¬ id = id2 := fun h => hne h.symm
    unfold modifySession
    by_cases h : k = id
    · subst h
      rw [if_pos rfl]
      simp only [findSession, if_neg hne2]
    · rw [if_neg h]
      by_cases h2 : k = id2
      · simp only [findSession, if_pos h2]
      · simp only [findSession, if_neg h2]
        exact ih

theorem tableKeys_modify {D : Type} (id : Nat) (f : VoiceSession D → VoiceSession D)
    (t : List (Nat × VoiceSession D)) :
    tableKeys (modifySession id f t) = tableKeys t := by
  induction t with
  | nil => rfl
  | cons kv rest ih =>
    obtain ⟨k, w⟩ := kv
    unfold modifySession
    by_cases h : k = id
    · simp [h, tableKeys]
    · simp only [h, if_false]
      simpa [tableKeys] using ih

theorem keysMatchIds_modify {D : Type} (id : Nat) (f : VoiceSession D → VoiceSession D)
    (t : List (Nat × VoiceSession D)) (hf : ∀ v, (f v).Id = v.Id)
    (h : KeysMatchIds t) : KeysMatchIds (modifySession id f t) := by
  induction t with
  | nil => exact h
  | cons kv rest ih =>
    obtain ⟨k, w⟩ := kv
    have hhead : w.Id = k := h (k, w) (List.mem_cons_self _ _)
    have htail : KeysMatchIds rest := fun x hx => h x (List.mem_cons_of_mem _ hx)
    unfold modifySession
    by_cases hk : k = id
    · simp only [hk, if_true]
      intro x hx
      rcases List.mem_cons.mp hx with rfl | hx
      · simp [hf, hhead, hk]
      · exact htail x hx
    · simp only [hk, if_false]
      intro x hx
      rcases List.mem_cons.mp hx with rfl | hx
      · exact hhead
      · exact ih htail x hx

/-! ## Client: lemmas on reading the datagram -/

theorem beBytes_length (width n : Nat) : (beBytes width n).length = width := by
  induction width generalizing n with
  | zero => rfl
  | succ w ih => simp [beBytes, ih]

theorem beValue_append_singleton (l : QByteArray) (b : Nat) :
    beValue (l ++ [b]) = beValue l * 256 + b % 256 := by
  simp [beValue, List.foldl_append]

theorem beValue_beBytes (width n : Nat) : beValue (beBytes width n) = n % 256 ^ width := by
  induction width generalizing n with
  | zero => simp [beBytes, beValue, Nat.mod_one]
  | succ w ih =>
    rw [beBytes, beValue_append_singleton, ih, Nat.mod_mod, pow_succ,
      Nat.mul_comm (256 ^ w) 256, Nat.mod_mul]
    omega

theorem readUInt_beBytes (width n : Nat) (rest : QByteArray) (h : n < 256 ^ width) :
    readUInt width (beBytes width n ++ rest) = (n, rest) := by
  have hl := beBytes_length width n
  have ht : List.take width (beBytes width n ++ rest) = beBytes width n := by
    rw [List.take_append_of_le_length (by omega), List.take_of_length_le (by omega)]
  have hd : List.drop width (beBytes width n ++ rest) = rest := by
    rw [List.drop_append_of_le_length (by omega), List.drop_of_length_le (by omega)]
    rfl
  simp only [readUInt, readBlock, ht, hd, hl, if_true, beValue_beBytes,
    Nat.mod_eq_of_lt h]

theorem readRawData_payload (payload rest buffer : QByteArray) :
    readRawData (payload ++ rest) buffer payload.length
      = (payload ++ buffer.drop payload.length, rest) := by
  simp [readRawData, readBlock]

theorem decodeStep_encode {D : Type} (env : Env D) (c : Client D) (r : VoiceRecord)
    (rest buffer : QByteArray) (h : r.WellFormed) :
    decodeStep env c (r.encode ++ rest) buffer
      = (decodeRecord env c r.payload.length r.sessionId (bufferAfter r buffer), rest,
          bufferAfter r buffer) := by
  have h1 : readUInt 2 (r.encode ++ rest)
      = (r.payload.length, beBytes 8 r.sessionId ++ (r.payload ++ rest)) := by
    have := readUInt_beBytes 2 r.payload.length (beBytes 8 r.sessionId ++ (r.payload ++ rest))
      (by have := h.1; norm_num; omega)
    simpa [VoiceRecord.encode, List.append_assoc] using this
  have h2 : readUInt 8 (beBytes 8 r.sessionId ++ (r.payload ++ rest))
      = (r.sessionId, r.payload ++ rest) :=
    readUInt_beBytes 8 r.sessionId (r.payload ++ rest) (by have := h.2; norm_num; omega)
  simp only [decodeStep, h1, h2, readRawData_payload, bufferAfter]

theorem encode_ne_nil (r : VoiceRecord) (rest : QByteArray) : r.encode ++ rest ≠ [] := by
  intro h
  have := congrArg List.length h
  simp [VoiceRecord.encode, beBytes_length] at this

/-! ## Client: lemmas on the loop -/

theorem decodeStep_stream_length {D : Type} (env : Env D) (c : Client D)
    (stream buffer : QByteArray) (h : stream ≠ []) :
    (decodeStep env c stream buffer).2.1.length < stream.length := by
  have hpos : 0 < stream.length := List.length_pos.mpr h
  simp only [decodeStep, readRawData, readUInt, readBlock, List.length_drop]
  omega

theorem decodeLoop_succ {D : Type} (env : Env D) (fuel : Nat) (c : Client D)
    (stream buffer : QByteArray) (h : stream.length ≤ fuel) :
    decodeLoop env (fuel + 1) c stream buffer = decodeLoop env fuel c stream buffer := by
  induction fuel generalizing c stream buffer with
  | zero =>
    have : stream = [] := List.length_eq_zero.mp (by omega)
    subst this
    simp [decodeLoop]
  | succ n ih =>
    by_cases hs : stream = []
    · subst hs
      simp [decodeLoop]
    · rw [decodeLoop, if_neg hs]
      conv_rhs => rw [decodeLoop, if_neg hs]
      apply ih
      have := decodeStep_stream_length env c stream buffer hs
      omega

theorem decodeLoop_fuel {D : Type} (env : Env D) (fuel : Nat) (c : Client D)
    (stream buffer : QByteArray) (h : stream.length ≤ fuel) :
    decodeLoop env fuel c stream buffer = decodeVoiceDataStream env c stream buffer := by
  induction fuel with
  | zero =>
    have : stream = [] := List.length_eq_zero.mp (by omega)
    subst this
    rfl
  | succ n ih =>
    by_cases hn : stream.length ≤ n
    · rw [decodeLoop_succ env n c stream buffer hn]
      exact ih hn
    · have : stream.length = n + 1 := by omega
      rw [decodeVoiceDataStream, this]

theorem decodeVoiceDataStream_nil {D : Type} (env : Env D) (c : Client D)
    (buffer : QByteArray) : decodeVoiceDataStream env c [] buffer = some c := rfl

theorem decodeVoiceDataStream_step {D : Type} (env : Env D) (c : Client D)
    (stream buffer : QByteArray) (h : stream ≠ []) :
    decodeVoiceDataStream env c stream buffer
      = decodeVoiceDataStream env (decodeStep env c stream buffer).1
          (decodeStep env c stream buffer).2.1 (decodeStep env c stream buffer).2.2 := by
  have hpos : 0 < stream.length := List.length_pos.mpr h
  obtain ⟨n, hn⟩ : ∃ n, stream.length = n + 1 := ⟨stream.length - 1, by omega⟩
  rw [decodeVoiceDataStream, hn, decodeLoop, if_neg h]
  apply decodeLoop_fuel
  have := decodeStep_stream_length env c stream buffer h
  omega

theorem decodeVoiceDataStream_total {D : Type} (env : Env D) (c : Client D)
    (stream buffer : QByteArray) :
    ∃ c2, decodeVoiceDataStream env c stream buffer = some c2 := by
  generalize hn : stream.length = n
  induction n using Nat.strong_induction_on generalizing c stream buffer with
  | _ n ih =>
    by_cases hs : stream = []
    · subst hs
      exact ⟨c, rfl⟩
    · rw [decodeVoiceDataStream_step env c stream buffer hs]
      have := decodeStep_stream_length env c stream buffer hs
      exact ih _ (by omega) _ _ _ rfl

theorem decodeVoiceDataStream_record {D : Type} (env : Env D) (c : Client D)
    (r : VoiceRecord) (rest buffer : QByteArray) (h : r.WellFormed) :
    decodeVoiceDataStream env c (r.encode ++ rest) buffer
      = decodeVoiceDataStream env
          (decodeRecord env c r.payload.length r.sessionId (bufferAfter r buffer)) rest
          (bufferAfter r buffer) := by
  rw [decodeVoiceDataStream_step env c _ buffer (encode_ne_nil r rest),
    decodeStep_encode env c r rest buffer h]

theorem decodeVoiceDataStream_records {D : Type} (env : Env D) (c : Client D)
    (rs : List VoiceRecord) (buffer : QByteArray) (h : ∀ r ∈ rs, r.WellFormed) :
    decodeVoiceDataStream env c (encodeRecords rs) buffer
      = some (decodeRecords env c rs buffer) := by
  induction rs generalizing c buffer with
  | nil => rfl
  | cons r rs ih =>
    rw [encodeRecords, decodeVoiceDataStream_record env c r _ buffer
      (h r (List.mem_cons_self _ _)), decodeRecords]
    exact ih _ _ (fun x hx => h x (List.mem_cons_of_mem _ hx))

/-! ## Client: lemmas on `updateVoiceSessionList` -/

theorem update_found {D : Type} (env : Env D) (c : Client D) (id : Nat)
    (v : VoiceSession D) (h : findSession id c.m_voiceSessions = some v) :
    updateVoiceSessionList env c id
      = (v, { c with trace := c.trace ++ [.sessionLookup id] }) := by
  simp only [updateVoiceSessionList, h]

theorem update_absent_session {D : Type} (env : Env D) (c : Client D) (id : Nat)
    (h : findSession id c.m_voiceSessions = none) :
    (updateVoiceSessionList env c id).1.Id = id ∧
    (updateVoiceSessionList env c id).1.ListenEnabled = false ∧
    (updateVoiceSessionList env c id).1.SaveEnabled = false ∧
    (updateVoiceSessionList env c id).1.AudioGenerator = { pending := [] } ∧
    (updateVoiceSessionList env c id).1.AudioDecoder = (env.opus_decoder_create id).1 := by
  simp only [updateVoiceSessionList, h, and_self]

theorem update_absent_table {D : Type} (env : Env D) (c : Client D) (id : Nat)
    (h : findSession id c.m_voiceSessions = none) :
    (updateVoiceSessionList env c id).2.m_voiceSessions
      = c.m_voiceSessions ++ [(id, (updateVoiceSessionList env c id).1)] := by
  simp only [updateVoiceSessionList, h]
  exact insertSession_absent id _ _ h

theorem update_counters {D : Type} (env : Env D) (c : Client D) (id : Nat) :
    (updateVoiceSessionList env c id).2.m_decodedVoicePacketsNb = c.m_decodedVoicePacketsNb ∧
    (updateVoiceSessionList env c id).2.m_decodedVoicePacketsBytesNb
      = c.m_decodedVoicePacketsBytesNb ∧
    (updateVoiceSessionList env c id).2.m_decodingErrorsNb = c.m_decodingErrorsNb ∧
    (updateVoiceSessionList env c id).2.m_audioSavePath = c.m_audioSavePath := by
  unfold updateVoiceSessionList
  split <;> simp

theorem update_find_self {D : Type} (env : Env D) (c : Client D) (id : Nat) :
    findSession id (updateVoiceSessionList env c id).2.m_voiceSessions
      = some (updateVoiceSessionList env c id).1 := by
  cases h : findSession id c.m_voiceSessions with
  | none =>
    simp only [updateVoiceSessionList, h]
    exact findSession_insert_self id _ _
  | some v =>
    rw [update_found env c id v h]
    exact h

theorem update_find_other {D : Type} (env : Env D) (c : Client D) (id id2 : Nat)
    (hne : id2 ≠ id) :
    findSession id2 (updateVoiceSessionList env c id).2.m_voiceSessions
      = findSession id2 c.m_voiceSessions := by
  cases h : findSession id c.m_voiceSessions with
  | none =>
    simp only [updateVoiceSessionList, h]
    exact findSession_insert_other id id2 _ _ hne
  | some v =>
    rw [update_found env c id v h]

theorem update_flags {D : Type} (env : Env D) (c : Client D) (id : Nat) :
    ((updateVoiceSessionList env c id).1.ListenEnabled
      || (updateVoiceSessionList env c id).1.SaveEnabled) = sessionEnabled c id := by
  cases h : findSession id c.m_voiceSessions with
  | none =>
    obtain ⟨_, h1, h2, _⟩ := update_absent_session env c id h
    simp [sessionEnabled, h, h1, h2]
  | some v =>
    rw [update_found env c id v h]
    simp [sessionEnabled, h]

theorem update_sessionEnabled {D : Type} (env : Env D) (c : Client D) (id id2 : Nat) :
    sessionEnabled (updateVoiceSessionList env c id).2 id2 = sessionEnabled c id2 := by
  by_cases hne : id2 = id
  · subst hne
    rw [← update_flags env c id2]
    simp only [sessionEnabled, update_find_self]
  · simp only [sessionEnabled, update_find_other env c id id2 hne]

theorem update_keysMatchIds {D : Type} (env : Env D) (c : Client D) (id : Nat)
    (hk : KeysMatchIds c.m_voiceSessions) :
    KeysMatchIds (updateVoiceSessionList env c id).2.m_voiceSessions := by
  cases h : findSession id c.m_voiceSessions with
  | none =>
    rw [update_absent_table env c id h]
    intro x hx
    rcases List.mem_append.mp hx with hx | hx
    · exact hk x hx
    · simp only [List.mem_singleton] at hx
      subst hx
      exact (update_absent_session env c id h).1
  | some v =>
    rw [update_found env c id v h]
    exact hk

theorem update_id {D : Type} (env : Env D) (c : Client D) (id : Nat)
    (hk : KeysMatchIds c.m_voiceSessions) : (updateVoiceSessionList env c id).1.Id = id :=
  update_keysMatchIds env c id hk _
    (findSession_mem id _ _ (update_find_self env c id))

theorem update_tableKeys_nodup {D : Type} (env : Env D) (c : Client D) (id : Nat)
    (hn : (tableKeys c.m_voiceSessions).Nodup) :
    (tableKeys (updateVoiceSessionList env c id).2.m_voiceSessions).Nodup := by
  cases h : findSession id c.m_voiceSessions with
  | none =>
    rw [update_absent_table env c id h]
    have hnot := (findSession_none_iff id c.m_voiceSessions).mp h
    simp only [tableKeys, List.map_append, List.map_cons, List.map_nil]
    rw [List.nodup_append]
    refine ⟨hn, by simp, ?_⟩
    simpa [tableKeys] using hnot
  | some v =>
    rw [update_found env c id v h]
    exact hn

/-! ## Client: lemmas on the loop body -/

theorem decodeRecord_muted {D : Type} (env : Env D) (c : Client D) (len id : Nat)
    (buffer : QByteArray) (h : sessionEnabled c id = false) :
    decodeRecord env c len id buffer = (updateVoiceSessionList env c id).2 := by
  have hf := update_flags env c id
  rw [h] at hf
  simp only [decodeRecord, hf, Bool.false_eq_true, if_false]

theorem decodeRecord_failed {D : Type} (env : Env D) (c : Client D) (len id : Nat)
    (buffer : QByteArray) (h : sessionEnabled c id = true)
    (hr : (decodeOutput env c len id buffer).1 ≤ 0) :
    decodeRecord env c len id buffer =
      { (updateVoiceSessionList env c id).2 with
        m_voiceSessions := modifySession id
          (fun v => { v with AudioDecoder := (decodeOutput env c len id buffer).2.2 })
          (updateVoiceSessionList env c id).2.m_voiceSessions
        trace := (updateVoiceSessionList env c id).2.trace ++
          [.decode (updateVoiceSessionList env c id).1.Id (buffer.take len) len]
        m_decodingErrorsNb := wrapInt32 (c.m_decodingErrorsNb + 1) } := by
  have hf := update_flags env c id
  rw [h] at hf
  have hr2 : (env.opus_decode (updateVoiceSessionList env c id).1.AudioDecoder
      (buffer.take len) len).1 ≤ 0 := hr
  simp only [decodeRecord, hf, if_true, hr2, decodeOutput, (update_counters env c id).2.2.1]

theorem decodeRecord_succeeded {D : Type} (env : Env D) (c : Client D) (len id : Nat)
    (buffer : QByteArray) (h : sessionEnabled c id = true)
    (hr : 0 < (decodeOutput env c len id buffer).1) :
    decodeRecord env c len id buffer =
      { (updateVoiceSessionList env c id).2 with
        m_voiceSessions := modifySession id
          (fun v => { v with
            AudioGenerator := v.AudioGenerator.write
              (pcmBytes (decodeOutput env c len id buffer).2.1
                ((decodeOutput env c len id buffer).1 * OPUS_CHANNEL_COUNT
                  * sizeof_opus_int16).toNat) })
          (modifySession id
            (fun v => { v with AudioDecoder := (decodeOutput env c len id buffer).2.2 })
            (updateVoiceSessionList env c id).2.m_voiceSessions)
        trace := (updateVoiceSessionList env c id).2.trace ++
          [.decode (updateVoiceSessionList env c id).1.Id (buffer.take len) len]
        m_decodedVoicePacketsNb := wrapInt32 (c.m_decodedVoicePacketsNb + 1)
        m_decodedVoicePacketsBytesNb := wrapInt32 (c.m_decodedVoicePacketsBytesNb +
          (decodeOutput env c len id buffer).1 * OPUS_CHANNEL_COUNT * sizeof_opus_int16) } := by
  have hf := update_flags env c id
  rw [h] at hf
  have hr2 : ¬ (env.opus_decode (updateVoiceSessionList env c id).1.AudioDecoder
      (buffer.take len) len).1 ≤ 0 := not_le.mpr hr
  simp only [decodeRecord, hf, if_true, hr2, if_false, decodeOutput,
    (update_counters env c id).1, (update_counters env c id).2.1]

theorem decodeRecord_trace {D : Type} (env : Env D) (c : Client D) (len id : Nat)
    (buffer : QByteArray) :
    (decodeRecord env c len id buffer).trace =
      (updateVoiceSessionList env c id).2.trace ++
        (if sessionEnabled c id then
          [.decode (updateVoiceSessionList env c id).1.Id (buffer.take len) len]
         else []) := by
  cases h : sessionEnabled c id with
  | false => simp [decodeRecord_muted env c len id buffer h]
  | true =>
    by_cases hr : (decodeOutput env c len id buffer).1 ≤ 0
    · rw [decodeRecord_failed env c len id buffer h hr]
      simp
    · rw [decodeRecord_succeeded env c len id buffer h (not_le.mp hr)]
      simp

theorem decodeRecord_find_other {D : Type} (env : Env D) (c : Client D) (len id id2 : Nat)
    (buffer : QByteArray) (hne : id2 ≠ id) :
    findSession id2 (decodeRecord env c len id buffer).m_voiceSessions
      = findSession id2 c.m_voiceSessions := by
  cases h : sessionEnabled c id with
  | false =>
    rw [decodeRecord_muted env c len id buffer h]
    exact update_find_other env c id id2 hne
  | true =>
    by_cases hr : (decodeOutput env c len id buffer).1 ≤ 0
    · rw [decodeRecord_failed env c len id buffer h hr]
      simp only [findSession_modify_other id id2 _ _ hne]
      exact update_find_other env c id id2 hne
    · rw [decodeRecord_succeeded env c len id buffer h (not_le.mp hr)]
      simp only [findSession_modify_other id id2 _ _ hne]
      exact update_find_other env c id id2 hne

theorem decodeRecord_find_self {D : Type} (env : Env D) (c : Client D) (len id : Nat)
    (buffer : QByteArray) :
    ∃ v, findSession id (decodeRecord env c len id buffer).m_voiceSessions = some v ∧
      v.Id = (updateVoiceSessionList env c id).1.Id ∧
      v.ListenEnabled = (updateVoiceSessionList env c id).1.ListenEnabled ∧
      v.SaveEnabled = (updateVoiceSessionList env c id).1.SaveEnabled := by
  cases h : sessionEnabled c id with
  | false =>
    rw [decodeRecord_muted env c len id buffer h]
    exact ⟨_, update_find_self env c id, rfl, rfl, rfl⟩
  | true =>
    by_cases hr : (decodeOutput env c len id buffer).1 ≤ 0
    · rw [decodeRecord_failed env c len id buffer h hr]
      simp only [findSession_modify_self, update_find_self, Option.map_some']
      exact ⟨_, rfl, rfl, rfl, rfl⟩
    · rw [decodeRecord_succeeded env c len id buffer h (not_le.mp hr)]
      simp only [findSession_modify_self, update_find_self, Option.map_some']
      exact ⟨_, rfl, rfl, rfl, rfl⟩

theorem decodeRecord_sessionEnabled {D : Type} (env : Env D) (c : Client D)
    (len id id2 : Nat) (buffer : QByteArray) :
    sessionEnabled (decodeRecord env c len id buffer) id2 = sessionEnabled c id2 := by
  by_cases hne : id2 = id
  · subst hne
    obtain ⟨v, hv, _, h1, h2⟩ := decodeRecord_find_self env c len id2 buffer
    rw [← update_flags env c id2]
    simp only [sessionEnabled, hv, h1, h2]
  · simp only [sessionEnabled, decodeRecord_find_other env c len id id2 buffer hne]

theorem decodeRecord_keysMatchIds {D : Type} (env : Env D) (c : Client D) (len id : Nat)
    (buffer : QByteArray) (hk : KeysMatchIds c.m_voiceSessions) :
    KeysMatchIds (decodeRecord env c len id buffer).m_voiceSessions := by
  have hu := update_keysMatchIds env c id hk
  cases h : sessionEnabled c id with
  | false =>
    rw [decodeRecord_muted env c len id buffer h]
    exact hu
  | true =>
    by_cases hr : (decodeOutput env c len id buffer).1 ≤ 0
    · rw [decodeRecord_failed env c len id buffer h hr]
      exact keysMatchIds_modify id _ _ (fun _ => rfl) hu
    · rw [decodeRecord_succeeded env c len id buffer h (not_le.mp hr)]
      exact keysMatchIds_modify id _ _ (fun _ => rfl)
        (keysMatchIds_modify id _ _ (fun _ => rfl) hu)

/-! ## Client: lemmas on the trace -/

theorem lookupEvents_append (a b : List ClientEvent) :
    lookupEvents (a ++ b) = lookupEvents a ++ lookupEvents b := by
  simp [lookupEvents]

theorem decodeEvents_append (a b : List ClientEvent) :
    decodeEvents (a ++ b) = decodeEvents a ++ decodeEvents b := by
  simp [decodeEvents]

theorem update_trace {D : Type} (env : Env D) (c : Client D) (id : Nat) :
    ∃ evs, (updateVoiceSessionList env c id).2.trace = c.trace ++ evs ∧
      lookupEvents evs = [.sessionLookup id] ∧ decodeEvents evs = [] := by
  cases h : findSession id c.m_voiceSessions with
  | none =>
    simp only [updateVoiceSessionList, h]
    refine ⟨_, rfl, ?_, ?_⟩
    · by_cases hf : (env.opus_decoder_create id).2 ≠ paNoError ∨ env.Pa_OpenDefaultStream id = false
      · simp [lookupEvents, hf]
      · simp [lookupEvents, hf]
    · by_cases hf : (env.opus_decoder_create id).2 ≠ paNoError ∨ env.Pa_OpenDefaultStream id = false
      · simp [decodeEvents, hf]
      · simp [decodeEvents, hf]
  | some v =>
    rw [update_found env c id v h]
    exact ⟨_, rfl, by simp [lookupEvents], by simp [decodeEvents]⟩

theorem bufferAfter_take (r : VoiceRecord) (buffer : QByteArray) :
    (bufferAfter r buffer).take r.payload.length = r.payload := by
  simp [bufferAfter]

theorem decodeRecord_events {D : Type} (env : Env D) (c : Client D) (len id : Nat)
    (buffer : QByteArray) (hk : KeysMatchIds c.m_voiceSessions) :
    ∃ evs, (decodeRecord env c len id buffer).trace = c.trace ++ evs ∧
      lookupEvents evs = [.sessionLookup id] ∧
      decodeEvents evs =
        if sessionEnabled c id then [.decode id (buffer.take len) len] else [] := by
  obtain ⟨evs, h1, h2, h3⟩ := update_trace env c id
  rw [decodeRecord_trace, h1, update_id env c id hk]
  refine ⟨_, List.append_assoc _ _ _, ?_, ?_⟩
  · rw [lookupEvents_append, h2]
    cases sessionEnabled c id <;> simp [lookupEvents]
  · rw [decodeEvents_append, h3]
    cases sessionEnabled c id <;> simp [decodeEvents]

theorem decodeRecords_events {D : Type} (env : Env D) (c : Client D)
    (rs : List VoiceRecord) (buffer : QByteArray) (hk : KeysMatchIds c.m_voiceSessions) :
    ∃ evs, (decodeRecords env c rs buffer).trace = c.trace ++ evs ∧
      lookupEvents evs = rs.map (fun r => ClientEvent.sessionLookup r.sessionId) ∧
      decodeEvents evs =
        (rs.filter (fun r => sessionEnabled c r.sessionId)).map
          (fun r => ClientEvent.decode r.sessionId r.payload r.payload.length) := by
  induction rs generalizing c buffer with
  | nil => exact ⟨[], by simp [decodeRecords], rfl, rfl⟩
  | cons r rs ih =>
    obtain ⟨e1, h1, h2, h3⟩ :=
      decodeRecord_events env c r.payload.length r.sessionId (bufferAfter r buffer) hk
    obtain ⟨e2, g1, g2, g3⟩ :=
      ih (decodeRecord env c r.payload.length r.sessionId (bufferAfter r buffer))
        (bufferAfter r buffer)
        (decodeRecord_keysMatchIds env c _ _ _ hk)
    refine ⟨e1 ++ e2, ?_, ?_, ?_⟩
    · rw [decodeRecords, g1, h1, List.append_assoc]
    · rw [lookupEvents_append, h2, g2]
      rfl
    · rw [decodeEvents_append, h3, g3, bufferAfter_take]
      simp only [decodeRecord_sessionEnabled]
      cases hen : sessionEnabled c r.sessionId with
      | false => simp [List.filter_cons, hen]
      | true => simp [List.filter_cons, hen]

/-! ## Client: the properties of the voice pipeline -/

/-- C6: a datagram that is the concatenation of N well-formed records is
consumed whole; it makes exactly N session lookups, with the ids of the
records in record order, and the decoder invocations are, in record order,
those of the records whose session has a capability switched on, each on the
session of the id of its record, with the payload of the record and its
length; there are at most N of them. -/
theorem decode_batch_in_order {D : Type} (env : Env D) (c : Client D)
    (rs : List VoiceRecord) (buffer : QByteArray) (hwf : ∀ r ∈ rs, r.WellFormed)
    (hk : KeysMatchIds c.m_voiceSessions) :
    ∃ c2 evs, decodeVoiceDataStream env c (encodeRecords rs) buffer = some c2 ∧
      c2.trace = c.trace ++ evs ∧
      lookupEvents evs = rs.map (fun r => ClientEvent.sessionLookup r.sessionId) ∧
      (lookupEvents evs).length = rs.length ∧
      decodeEvents evs =
        (rs.filter (fun r => sessionEnabled c r.sessionId)).map
          (fun r => ClientEvent.decode r.sessionId r.payload r.payload.length) ∧
      (decodeEvents evs).length ≤ rs.length := by
  obtain ⟨evs, h1, h2, h3⟩ := decodeRecords_events env c rs buffer hk
  refine ⟨_, evs, decodeVoiceDataStream_records env c rs buffer hwf, h1, h2, ?_, h3, ?_⟩
  · rw [h2, List.length_map]
  · rw [h3, List.length_map]
    exact List.length_filter_le _ _

theorem decode_batch_in_order_witness :
    (∀ r ∈ [VoiceRecord.mk 7 [1, 2, 3], VoiceRecord.mk 9 [4], VoiceRecord.mk 7 [255]],
      r.WellFormed) ∧
    KeysMatchIds listeningClient.m_voiceSessions ∧
    ∃ c2 evs, decodeVoiceDataStream exampleEnv listeningClient
        (encodeRecords [VoiceRecord.mk 7 [1, 2, 3], VoiceRecord.mk 9 [4],
          VoiceRecord.mk 7 [255]]) [] = some c2 ∧
      c2.trace = listeningClient.trace ++ evs ∧
      lookupEvents evs = [.sessionLookup 7, .sessionLookup 9, .sessionLookup 7] ∧
      (lookupEvents evs).length = 3 ∧
      decodeEvents evs = [.decode 7 [1, 2, 3] 3, .decode 7 [255] 1] ∧
      (decodeEvents evs).length ≤ 3 :=
  have hwf : ∀ r ∈ [VoiceRecord.mk 7 [1, 2, 3], VoiceRecord.mk 9 [4],
      VoiceRecord.mk 7 [255]], r.WellFormed := by
    intro r hr
    simp only [List.mem_cons, List.mem_singleton, List.not_mem_nil, or_false] at hr
    rcases hr with rfl | rfl | rfl <;> exact ⟨by decide, by decide⟩
  have hk : KeysMatchIds listeningClient.m_voiceSessions := by
    intro kv hkv
    simp only [listeningClient, List.mem_singleton] at hkv
    subst hkv
    rfl
  ⟨hwf, hk, decode_batch_in_order exampleEnv listeningClient _ [] hwf hk⟩

/-- C7 fails on the code: a truncated record is processed like a whole one.
The datagram `00 05 | 00 00 00 00 00 00 00 07 | AA` declares 5 payload bytes
and carries 1; on a client listening to session 7 the decoder is invoked with
length 5 on a buffer of which only the first byte was read. The datagram `01`
(a header cut after one byte) on a client with no session creates session 0. -/
theorem truncated_record_processed :
    (decodeVoiceDataStream exampleEnv listeningClient
        [0, 5, 0, 0, 0, 0, 0, 0, 0, 7, 170] (List.replicate 11 0)).map (fun c => c.trace)
      = some [.sessionLookup 7, .decode 7 [170, 0, 0, 0, 0] 5] ∧
    (readRawData [170] (List.replicate 11 0) 5).1.take 5 = [170, 0, 0, 0, 0] ∧
    (readBlock [170] 5).1.length = 1 ∧
    (decodeVoiceDataStream exampleEnv emptyClient [1] [0]).map
        (fun c => (tableKeys c.m_voiceSessions, c.trace))
      = some ([0], [.sessionLookup 0, .decoderCreate 0, .streamOpen 0, .streamStart 0,
          .newVoiceSession 0]) := by
  decide

theorem sessionEnabled_found {D : Type} (c : Client D) (id : Nat)
    (h : sessionEnabled c id = true) :
    ∃ v, findSession id c.m_voiceSessions = some v := by
  cases hf : findSession id c.m_voiceSessions with
  | none => simp [sessionEnabled, hf] at h
  | some v => exact ⟨v, rfl⟩

theorem pcmBytes_length (pcm : Nat → Nat) (n : Nat) : (pcmBytes pcm n).length = n := by
  simp [pcmBytes]

theorem wrapInt32_of_inRange (x : Int) (h : InIntRange x) : wrapInt32 x = x := by
  obtain ⟨h1, h2⟩ := h
  unfold wrapInt32
  omega

/-- C8: a record whose session has neither capability switched on when it is
processed (a session this record creates included) is not decoded: the loop
body does what `updateVoiceSessionList` does and no more, so no decoder
invocation is added to the trace, the three counters keep their values, every
session that existed is stored unchanged (its ring buffer included), and a
session created by the record has an empty ring buffer and both capabilities
off. -/
theorem mute_gate_skips_decoder {D : Type} (env : Env D) (c : Client D) (len id : Nat)
    (buffer : QByteArray) (h : sessionEnabled c id = false) :
    decodeRecord env c len id buffer = (updateVoiceSessionList env c id).2 ∧
    decodeEvents (decodeRecord env c len id buffer).trace = decodeEvents c.trace ∧
    (decodeRecord env c len id buffer).m_decodedVoicePacketsNb = c.m_decodedVoicePacketsNb ∧
    (decodeRecord env c len id buffer).m_decodedVoicePacketsBytesNb
      = c.m_decodedVoicePacketsBytesNb ∧
    (decodeRecord env c len id buffer).m_decodingErrorsNb = c.m_decodingErrorsNb ∧
    (∀ (id2 : Nat) (v : VoiceSession D), findSession id2 c.m_voiceSessions = some v →
      findSession id2 (decodeRecord env c len id buffer).m_voiceSessions = some v) ∧
    (findSession id c.m_voiceSessions = none →
      ∃ v, findSession id (decodeRecord env c len id buffer).m_voiceSessions = some v ∧
        v.AudioGenerator = { pending := [] } ∧ v.ListenEnabled = false ∧
        v.SaveEnabled = false) := by
  have hm := decodeRecord_muted env c len id buffer h
  obtain ⟨evs, h1, _, h3⟩ := update_trace env c id
  obtain ⟨k1, k2, k3, _⟩ := update_counters env c id
  rw [hm]
  refine ⟨rfl, ?_, k1, k2, k3, ?_, ?_⟩
  · rw [h1, decodeEvents_append, h3, List.append_nil]
  · intro id2 v hv
    by_cases hne : id2 = id
    · subst hne
      rw [update_find_self, update_found env c id2 v hv]
    · rw [update_find_other env c id id2 hne]
      exact hv
  · intro hnone
    obtain ⟨_, h2, h3, h4, _⟩ := update_absent_session env c id hnone
    exact ⟨_, update_find_self env c id, h4, h2, h3⟩

theorem mute_gate_skips_decoder_witness :
    sessionEnabled emptyClient 7 = false ∧
    decodeEvents (decodeRecord exampleEnv emptyClient 3 7 [1, 2, 3]).trace
      = decodeEvents emptyClient.trace ∧
    (decodeRecord exampleEnv emptyClient 3 7 [1, 2, 3]).m_decodedVoicePacketsNb = 0 :=
  ⟨by decide,
    (mute_gate_skips_decoder exampleEnv emptyClient 3 7 [1, 2, 3] (by decide)).2.1,
    (mute_gate_skips_decoder exampleEnv emptyClient 3 7 [1, 2, 3] (by decide)).2.2.1⟩

/-- C9: `updateVoiceSessionList` called twice with one id gives the same
session both times; the second call changes nothing but the record of the
lookup (same table, same counters, no decoder created, no stream opened, no
`newVoiceSession`); after the first call the session is stored under the id,
the id is a key of the table exactly once, the sessions of other ids are what
they were, and `newVoiceSession` was emitted once for the id when it was
absent and not at all when it was present, and never for another id. -/
theorem ensure_session_idempotent {D : Type} (env : Env D) (c : Client D) (id : Nat)
    (hn : (tableKeys c.m_voiceSessions).Nodup) :
    (updateVoiceSessionList env (updateVoiceSessionList env c id).2 id).1
      = (updateVoiceSessionList env c id).1 ∧
    (updateVoiceSessionList env (updateVoiceSessionList env c id).2 id).2
      = { (updateVoiceSessionList env c id).2 with
          trace := (updateVoiceSessionList env c id).2.trace ++ [.sessionLookup id] } ∧
    findSession id (updateVoiceSessionList env c id).2.m_voiceSessions
      = some (updateVoiceSessionList env c id).1 ∧
    (tableKeys (updateVoiceSessionList env c id).2.m_voiceSessions).count id = 1 ∧
    (∀ id2, id2 ≠ id →
      findSession id2 (updateVoiceSessionList env c id).2.m_voiceSessions
        = findSession id2 c.m_voiceSessions) ∧
    (∃ evs, (updateVoiceSessionList env c id).2.trace = c.trace ++ evs ∧
      evs.count (.newVoiceSession id)
        = (if (findSession id c.m_voiceSessions).isSome then 0 else 1) ∧
      ∀ id2, id2 ≠ id → evs.count (.newVoiceSession id2) = 0) := by
  have hself := update_find_self env c id
  have h2 := update_found env (updateVoiceSessionList env c id).2 id _ hself
  refine ⟨by rw [h2], by rw [h2], hself, ?_, ?_, ?_⟩
  · apply List.count_eq_one_of_mem (update_tableKeys_nodup env c id hn)
    by_contra hmem
    rw [← findSession_none_iff, hself] at hmem
    exact Option.noConfusion hmem
  · intro id2 hne
    exact update_find_other env c id id2 hne
  · cases h : findSession id c.m_voiceSessions with
    | none =>
      simp only [updateVoiceSessionList, h]
      refine ⟨_, rfl, ?_, ?_⟩
      · by_cases hf : (env.opus_decoder_create id).2 ≠ paNoError ∨
            env.Pa_OpenDefaultStream id = false
        · simp [hf, List.count_cons]
        · simp [hf, List.count_cons]
      · intro id2 hne
        have hne2 : ¬ id = id2 := fun e => hne e.symm
        by_cases hf : (env.opus_decoder_create id).2 ≠ paNoError ∨
            env.Pa_OpenDefaultStream id = false
        · simp [hf, List.count_cons, hne2]
        · simp [hf, List.count_cons, hne2]
    | some v =>
      rw [update_found env c id v h]
      refine ⟨_, rfl, by simp [List.count_cons], ?_⟩
      intro id2 _
      simp [List.count_cons]

theorem ensure_session_idempotent_witness :
    (tableKeys listeningClient.m_voiceSessions).Nodup ∧
    (updateVoiceSessionList exampleEnv (updateVoiceSessionList exampleEnv listeningClient 9).2
        9).1 = (updateVoiceSessionList exampleEnv listeningClient 9).1 ∧
    (tableKeys (updateVoiceSessionList exampleEnv listeningClient 9).2.m_voiceSessions).count 9
      = 1 :=
  ⟨by decide,
    (ensure_session_idempotent exampleEnv listeningClient 9 (by decide)).1,
    (ensure_session_idempotent exampleEnv listeningClient 9 (by decide)).2.2.2.1⟩

/-- C10, as stated, fails at the end of the range of `int`: on a client that
has decoded 1118481 frames of 960 samples (2147483520 bytes), one more frame
for the listened session 7 decodes to 960 samples, and the decoded-byte count
becomes -2147481856, not 2147483520 + 1920. -/
theorem decode_accounting_counterexample :
    sessionEnabled longRunningClient 7 = true ∧
    (decodeOutput exampleEnv longRunningClient 3 7 [1, 2, 3]).1 = 960 ∧
    longRunningClient.m_decodedVoicePacketsBytesNb = 2147483520 ∧
    (decodeRecord exampleEnv longRunningClient 3 7 [1, 2, 3]).m_decodedVoicePacketsBytesNb
      = -2147481856 ∧
    (decodeRecord exampleEnv longRunningClient 3 7 [1, 2, 3]).m_decodedVoicePacketsBytesNb
      ≠ longRunningClient.m_decodedVoicePacketsBytesNb + 2 * 960 := by
  decide

/-- C10 (amended): a record of a session with a capability switched on is
decoded (one decoder invocation is added to the trace). When the result `r`
is at most 0 and the error count plus 1 is an `int`, the error count grows by
1, the two other counters keep their values and every ring buffer is
unchanged. When `r` is positive and the frame count plus 1 and the byte count
plus `2 * r` are `int` values, the frame count grows by 1, the byte count by
`2 * r`, the error count keeps its value, the ring buffer of the session
gets the first `2 * r` bytes of the `pcm` array appended, and the sessions of
other ids are unchanged. In both cases the loop goes on with the rest of the
datagram. -/
theorem decode_result_accounting {D : Type} (env : Env D) (c : Client D) (len id : Nat)
    (buffer : QByteArray) (h : sessionEnabled c id = true) :
    decodeEvents (decodeRecord env c len id buffer).trace
      = decodeEvents c.trace ++
          [.decode (updateVoiceSessionList env c id).1.Id (buffer.take len) len] ∧
    ((decodeOutput env c len id buffer).1 ≤ 0 → InIntRange (c.m_decodingErrorsNb + 1) →
      (decodeRecord env c len id buffer).m_decodingErrorsNb = c.m_decodingErrorsNb + 1 ∧
      (decodeRecord env c len id buffer).m_decodedVoicePacketsNb
        = c.m_decodedVoicePacketsNb ∧
      (decodeRecord env c len id buffer).m_decodedVoicePacketsBytesNb
        = c.m_decodedVoicePacketsBytesNb ∧
      ∀ (id2 : Nat) (v : VoiceSession D), findSession id2 c.m_voiceSessions = some v →
        ∃ v2, findSession id2 (decodeRecord env c len id buffer).m_voiceSessions = some v2 ∧
          v2.AudioGenerator = v.AudioGenerator) ∧
    (0 < (decodeOutput env c len id buffer).1 →
      InIntRange (c.m_decodedVoicePacketsNb + 1) →
      InIntRange (c.m_decodedVoicePacketsBytesNb + 2 * (decodeOutput env c len id buffer).1) →
      (decodeRecord env c len id buffer).m_decodedVoicePacketsNb
        = c.m_decodedVoicePacketsNb + 1 ∧
      (decodeRecord env c len id buffer).m_decodedVoicePacketsBytesNb
        = c.m_decodedVoicePacketsBytesNb + 2 * (decodeOutput env c len id buffer).1 ∧
      (decodeRecord env c len id buffer).m_decodingErrorsNb = c.m_decodingErrorsNb ∧
      (∃ v v2, findSession id c.m_voiceSessions = some v ∧
        findSession id (decodeRecord env c len id buffer).m_voiceSessions = some v2 ∧
        v2.AudioGenerator.pending = v.AudioGenerator.pending ++
          pcmBytes (decodeOutput env c len id buffer).2.1
            (2 * (decodeOutput env c len id buffer).1).toNat) ∧
      ((pcmBytes (decodeOutput env c len id buffer).2.1
          (2 * (decodeOutput env c len id buffer).1).toNat).length : Int)
        = 2 * (decodeOutput env c len id buffer).1 ∧
      ∀ (id2 : Nat), id2 ≠ id →
        findSession id2 (decodeRecord env c len id buffer).m_voiceSessions
          = findSession id2 c.m_voiceSessions) ∧
    (∀ (r : VoiceRecord) (rest buffer0 : QByteArray), r.WellFormed →
      decodeVoiceDataStream env c (r.encode ++ rest) buffer0
        = decodeVoiceDataStream env
            (decodeRecord env c r.payload.length r.sessionId (bufferAfter r buffer0)) rest
            (bufferAfter r buffer0) ∧
      ∃ c2, decodeVoiceDataStream env c (r.encode ++ rest) buffer0 = some c2) := by
  obtain ⟨v, hv⟩ := sessionEnabled_found c id h
  obtain ⟨evs, ht, _, hd⟩ := update_trace env c id
  obtain ⟨k1, k2, k3, _⟩ := update_counters env c id
  have hself := update_find_self env c id
  have hfst : (updateVoiceSessionList env c id).1 = v := by rw [update_found env c id v hv]
  refine ⟨?_, ?_, ?_, ?_⟩
  · rw [decodeRecord_trace, h, if_pos rfl, decodeEvents_append, ht, decodeEvents_append, hd,
      List.append_nil]
    simp [decodeEvents]
  · intro hr hrange
    rw [decodeRecord_failed env c len id buffer h hr]
    refine ⟨wrapInt32_of_inRange _ hrange, k1, k2, ?_⟩
    intro id2 w hw
    by_cases hne : id2 = id
    · subst hne
      simp only [findSession_modify_self, hself, Option.map_some']
      have hwv : w = v := Option.some.inj (hw.symm.trans hv)
      exact ⟨_, rfl, by rw [hfst, hwv]⟩
    · simp only [findSession_modify_other id id2 _ _ hne,
        update_find_other env c id id2 hne]
      exact ⟨w, hw, rfl⟩
  · intro hr hF hB
    have h2r : (decodeOutput env c len id buffer).1 * OPUS_CHANNEL_COUNT * sizeof_opus_int16
        = 2 * (decodeOutput env c len id buffer).1 := by
      simp only [OPUS_CHANNEL_COUNT, sizeof_opus_int16]
      omega
    rw [decodeRecord_succeeded env c len id buffer h hr, h2r]
    refine ⟨wrapInt32_of_inRange _ hF, wrapInt32_of_inRange _ hB, k3, ?_, ?_, ?_⟩
    · refine ⟨v, ?_⟩
      simp only [findSession_modify_self, hself, Option.map_some', hv, Option.some.injEq,
        true_and, exists_eq_left', PlaybackAudioGenerator.write, hfst]
    · rw [pcmBytes_length]
      omega
    · intro id2 hne
      simp only [findSession_modify_other id id2 _ _ hne]
      exact update_find_other env c id id2 hne
  · intro r rest buffer0 hwf
    exact ⟨decodeVoiceDataStream_record env c r rest buffer0 hwf,
      decodeVoiceDataStream_total env c _ buffer0⟩

theorem decode_result_accounting_witness :
    sessionEnabled listeningClient 7 = true ∧
    (0 < (decodeOutput exampleEnv listeningClient 3 7 [1, 2, 3]).1 →
      InIntRange (listeningClient.m_decodedVoicePacketsNb + 1) →
      InIntRange (listeningClient.m_decodedVoicePacketsBytesNb
        + 2 * (decodeOutput exampleEnv listeningClient 3 7 [1, 2, 3]).1) →
      (decodeRecord exampleEnv listeningClient 3 7 [1, 2, 3]).m_decodedVoicePacketsNb
        = listeningClient.m_decodedVoicePacketsNb + 1) ∧
    (decodeRecord exampleEnv listeningClient 3 7 [1, 2, 3]).m_decodedVoicePacketsBytesNb
      = 1920 :=
  ⟨by decide,
    fun h1 h2 h3 =>
      ((decode_result_accounting exampleEnv listeningClient 3 7 [1, 2, 3] (by decide)).2.2.1
        h1 h2 h3).1,
    by decide⟩

/-! ## Server: repeated sweeps and the password "Ping" -/

theorem sweepLoop_sweepLoop (interval now1 now2 : Nat) (l : List ClientInfo)
    (h : now1 ≤ now2) :
    sweepLoop interval now2 (sweepLoop interval now1 l) = sweepLoop interval now2 l := by
  induction l with
  | nil => rfl
  | cons c cs ih =>
    by_cases h1 : now1 > c.LastPing + interval
    · have h2 : now2 > c.LastPing + interval := by omega
      rw [sweepLoop, if_pos h1, ih]
      conv_rhs => rw [sweepLoop, if_pos h2]
    · rw [sweepLoop, if_neg h1]
      by_cases h2 : now2 > c.LastPing + interval
      · rw [sweepLoop, if_pos h2, ih]
        conv_rhs => rw [sweepLoop, if_pos h2]
      · rw [sweepLoop, if_neg h2, ih]
        conv_rhs => rw [sweepLoop, if_neg h2]

theorem sweepLoop_removes (interval now : Nat) (l : List ClientInfo) (c : ClientInfo)
    (h : now > c.LastPing + interval) : c ∉ sweepLoop interval now l := by
  rw [sweepLoop_eq_filter, List.mem_filter]
  rintro ⟨_, hc⟩
  have := of_decide_eq_true hc
  omega

/-- C14: a sweep at `now1` followed by a sweep at `now2 >= now1` gives the
registry of a single sweep at `now2`; a second sweep at the same time changes
nothing; an entry that the first sweep removed is in neither result. -/
theorem sweep_then_sweep (interval : Nat) (s : Server) (now1 now2 : Nat)
    (h : now1 ≤ now2) :
    clientDisconnectionTimer_timeout interval
        (clientDisconnectionTimer_timeout interval s now1) now2
      = clientDisconnectionTimer_timeout interval s now2 ∧
    clientDisconnectionTimer_timeout interval
        (clientDisconnectionTimer_timeout interval s now2) now2
      = clientDisconnectionTimer_timeout interval s now2 ∧
    (∀ c ∈ s.m_clients, now1 > c.LastPing + interval →
      c ∉ (clientDisconnectionTimer_timeout interval s now1).m_clients ∧
      c ∉ (clientDisconnectionTimer_timeout interval
        (clientDisconnectionTimer_timeout interval s now1) now2).m_clients) := by
  refine ⟨?_, ?_, ?_⟩
  · simp only [clientDisconnectionTimer_timeout, sweepLoop_sweepLoop interval now1 now2 _ h]
  · simp only [clientDisconnectionTimer_timeout,
      sweepLoop_sweepLoop interval now2 now2 _ (Nat.le_refl _)]
  · intro c _ hc
    refine ⟨sweepLoop_removes interval now1 _ c hc, ?_⟩
    exact sweepLoop_removes interval now2 _ c (by omega)

theorem sweep_then_sweep_witness :
    1 ≤ 3 ∧
    clientDisconnectionTimer_timeout 2
        (clientDisconnectionTimer_timeout 2 ⟨[115, 51], [⟨1, 5000, 0⟩, ⟨9, 1000, 2⟩]⟩ 1) 3
      = clientDisconnectionTimer_timeout 2 ⟨[115, 51], [⟨1, 5000, 0⟩, ⟨9, 1000, 2⟩]⟩ 3 :=
  ⟨by decide,
    (sweep_then_sweep 2 ⟨[115, 51], [⟨1, 5000, 0⟩, ⟨9, 1000, 2⟩]⟩ 1 3 (by decide)).1⟩

theorem readyRead_password (s : Server) (data : QByteArray) (a : QHostAddress)
    (p t : Nat) : (udpSocket_readyRead s data a p t).m_password = s.m_password := by
  unfold udpSocket_readyRead
  split
  · rfl
  · split <;> rfl

theorem readyRead_pingPassword (s : Server) (data : QByteArray) (a : QHostAddress)
    (p t : Nat) (hpw : s.m_password = PING_STR) :
    udpSocket_readyRead s data a p t = s ∨
    udpSocket_readyRead s data a p t
      = { s with m_clients := refreshFirst a p t s.m_clients } := by
  by_cases hping : fromLatin1 data = PING_STR
  · exact Or.inr (readyRead_ping s data a p t hping)
  · exact Or.inl (readyRead_reject s data a p t hping (by rw [hpw]; exact hping))

theorem serverStep_pingPassword_empty (interval : Nat) (s : Server) (e : ServerEvent)
    (hpw : s.m_password = PING_STR) (he : s.m_clients = []) :
    serverStep interval s e = s := by
  obtain ⟨pw, cl⟩ := s
  simp only at hpw he
  subst he
  cases e with
  | datagram d a p t =>
    rcases readyRead_pingPassword ⟨pw, []⟩ d a p t hpw with h | h
    · exact h
    · rw [serverStep, h]
      rfl
  | sweep t => rfl

/-- C18: on a server whose password is "Ping", a datagram carrying the
password takes the keepalive branch, no datagram changes the length of the
registry, and a registry that is empty stays empty (the whole state stays as
it is) under every sequence of datagrams and sweeps. -/
theorem ping_password_never_registers (interval : Nat) (s : Server)
    (hpw : s.m_password = PING_STR) :
    (∀ (data : QByteArray) (a : QHostAddress) (p t : Nat),
      fromLatin1 data = s.m_password →
      udpSocket_readyRead s data a p t
        = { s with m_clients := refreshFirst a p t s.m_clients }) ∧
    (∀ (data : QByteArray) (a : QHostAddress) (p t : Nat),
      (udpSocket_readyRead s data a p t).m_clients.length = s.m_clients.length ∧
      endpoints (udpSocket_readyRead s data a p t).m_clients = endpoints s.m_clients) ∧
    (s.m_clients = [] → ∀ evs : List ServerEvent, serverRun interval s evs = s) := by
  refine ⟨?_, ?_, ?_⟩
  · intro data a p t hd
    exact readyRead_ping s data a p t (by rw [hd, hpw])
  · intro data a p t
    rcases readyRead_pingPassword s data a p t hpw with h | h
    · rw [h]
      exact ⟨rfl, rfl⟩
    · rw [h]
      exact ⟨refreshFirst_length a p t _, refreshFirst_endpoints a p t _⟩
  · intro he evs
    induction evs with
    | nil => rfl
    | cons e es ih =>
      rw [serverRun, List.foldl_cons, serverStep_pingPassword_empty interval s e hpw he]
      exact ih

theorem ping_password_never_registers_witness :
    (Server.mk PING_STR []).m_password = PING_STR ∧
    serverRun 2 (Server.mk PING_STR [])
        [.datagram [80, 105, 110, 103] 1 5000 0, .sweep 1,
          .datagram [80, 105, 110, 103] 1 5000 2]
      = Server.mk PING_STR [] :=
  ⟨rfl,
    (ping_password_never_registers 2 (Server.mk PING_STR []) rfl).2.2 rfl _⟩

/-! ## The registration datagram against the server check -/

theorem toUtf8_ascii (p : QString) (h : ∀ u ∈ p, u < 128) : toUtf8 p = p := by
  induction p with
  | nil => rfl
  | cons u rest ih =>
    have hu : u < 128 := h u (List.mem_cons_self _ _)
    have hrest := ih (fun x hx => h x (List.mem_cons_of_mem _ hx))
    cases rest with
    | nil => simp [toUtf8, hu]
    | cons l rest2 => simp [toUtf8, hu, hrest]

theorem registrationData_ascii (p : QString) (h : IsAsciiText p) :
    registrationData p = p := by
  rw [registrationData, toUtf8_ascii p (fun u hu => (h u hu).2), fromCString]
  apply List.takeWhile_eq_self_iff.mpr
  intro u hu
  have := (h u hu).1
  simp
  omega

theorem fromLatin1_ascii (p : QString) (h : IsAsciiText p) : fromLatin1 p = p := by
  unfold fromLatin1
  conv_rhs => rw [← List.map_id p]
  apply List.map_congr_left
  intro u hu
  have := (h u hu).2
  simp only [id]
  omega

theorem ascii_password_accepted (p : QString) (clients : List ClientInfo)
    (a : QHostAddress) (port t : Nat) (h : IsAsciiText p) (hping : p ≠ PING_STR) :
    udpSocket_readyRead ⟨p, clients⟩ (registrationData p) a port t
      = ⟨p, clients ++ [{ Address := a, Port := port, LastPing := t }]⟩ := by
  rw [registrationData_ascii p h]
  exact readyRead_register ⟨p, clients⟩ p a port t hping (fromLatin1_ascii p h)

/-- C17 fails on the code: the password "é" (one code unit, 233) differs from
"Ping"; `registerToServer` sends its UTF-8 form, the two bytes C3 A9; the
server, configured with the same password, finds a datagram of length 2
against a password of length 1 and leaves the registry as it was. A password
with an embedded NUL is cut at the NUL and is rejected too. -/
theorem non_ascii_password_rejected :
    ([233] : QString) ≠ PING_STR ∧
    registrationData [233] = [195, 169] ∧
    udpSocket_readyRead ⟨[233], []⟩ (registrationData [233]) 1 5000 7 = ⟨[233], []⟩ ∧
    registrationData [97, 0, 98] = [97] ∧
    udpSocket_readyRead ⟨[97, 0, 98], []⟩ (registrationData [97, 0, 98]) 1 5000 7
      = ⟨[97, 0, 98], []⟩ := by
  decide

/-! ## Client: capabilities -/

theorem setCapability_found {D : Type} (c : Client D) (id : Nat)
    (cap : VoiceSessionCapability) (enabled : Bool) (v : VoiceSession D)
    (h : findSession id c.m_voiceSessions = some v) :
    setVoiceSessionCapability c id cap enabled =
      { c with
        m_voiceSessions := modifySession id
          (fun w => match cap with
            | .Listen => { w with ListenEnabled := enabled }
            | .Save => { w with SaveEnabled := enabled }) c.m_voiceSessions } := by
  cases cap <;> simp only [setVoiceSessionCapability, h]

theorem setCapability_absent {D : Type} (c : Client D) (id : Nat)
    (cap : VoiceSessionCapability) (enabled : Bool)
    (h : findSession id c.m_voiceSessions = none) :
    setVoiceSessionCapability c id cap enabled = c := by
  simp only [setVoiceSessionCapability, h]

theorem setCapability_tableKeys {D : Type} (c : Client D) (id : Nat)
    (cap : VoiceSessionCapability) (enabled : Bool) :
    tableKeys (setVoiceSessionCapability c id cap enabled).m_voiceSessions
      = tableKeys c.m_voiceSessions := by
  cases h : findSession id c.m_voiceSessions with
  | none => rw [setCapability_absent c id cap enabled h]
  | some v =>
    rw [setCapability_found c id cap enabled v h]
    exact tableKeys_modify id _ _

theorem setCapability_keysMatchIds {D : Type} (c : Client D) (id : Nat)
    (cap : VoiceSessionCapability) (enabled : Bool) (hk : KeysMatchIds c.m_voiceSessions) :
    KeysMatchIds (setVoiceSessionCapability c id cap enabled).m_voiceSessions := by
  cases h : findSession id c.m_voiceSessions with
  | none =>
    rw [setCapability_absent c id cap enabled h]
    exact hk
  | some v =>
    rw [setCapability_found c id cap enabled v h]
    apply keysMatchIds_modify id _ _ _ hk
    intro w
    cases cap <;> rfl

/-- C11: `setVoiceSessionCapability` on an id without session changes nothing;
on an id with a session it stores, under that id, the session with the named
flag set to `enabled` and every other field as it was; the sessions of other
ids, the keys of the table, the three counters, the save path and the trace
are unchanged. -/
theorem set_capability_frame {D : Type} (c : Client D) (id : Nat)
    (cap : VoiceSessionCapability) (enabled : Bool) :
    (findSession id c.m_voiceSessions = none →
      setVoiceSessionCapability c id cap enabled = c) ∧
    (∀ v, findSession id c.m_voiceSessions = some v →
      findSession id (setVoiceSessionCapability c id cap enabled).m_voiceSessions
        = some (match cap with
          | .Listen => { v with ListenEnabled := enabled }
          | .Save => { v with SaveEnabled := enabled })) ∧
    (∀ id2, id2 ≠ id →
      findSession id2 (setVoiceSessionCapability c id cap enabled).m_voiceSessions
        = findSession id2 c.m_voiceSessions) ∧
    tableKeys (setVoiceSessionCapability c id cap enabled).m_voiceSessions
      = tableKeys c.m_voiceSessions ∧
    (setVoiceSessionCapability c id cap enabled).m_decodedVoicePacketsNb
      = c.m_decodedVoicePacketsNb ∧
    (setVoiceSessionCapability c id cap enabled).m_decodedVoicePacketsBytesNb
      = c.m_decodedVoicePacketsBytesNb ∧
    (setVoiceSessionCapability c id cap enabled).m_decodingErrorsNb
      = c.m_decodingErrorsNb ∧
    (setVoiceSessionCapability c id cap enabled).m_audioSavePath = c.m_audioSavePath ∧
    (setVoiceSessionCapability c id cap enabled).trace = c.trace := by
  refine ⟨setCapability_absent c id cap enabled, ?_, ?_,
    setCapability_tableKeys c id cap enabled, ?_⟩
  · intro v hv
    rw [setCapability_found c id cap enabled v hv]
    simp only [findSession_modify_self, hv, Option.map_some']
  · intro id2 hne
    cases h : findSession id c.m_voiceSessions with
    | none => rw [setCapability_absent c id cap enabled h]
    | some v =>
      rw [setCapability_found c id cap enabled v h]
      exact findSession_modify_other id id2 _ _ hne
  · cases h : findSession id c.m_voiceSessions with
    | none =>
      rw [setCapability_absent c id cap enabled h]
      exact ⟨rfl, rfl, rfl, rfl, rfl⟩
    | some v =>
      rw [setCapability_found c id cap enabled v h]
      exact ⟨rfl, rfl, rfl, rfl, rfl⟩

/-! ## Client: the audio callback -/

theorem read_length (g : PlaybackAudioGenerator) (len : Nat) :
    (g.read len).1.length = len := by
  simp only [PlaybackAudioGenerator.read, List.length_append, List.length_take,
    List.length_replicate]
  omega

/-- C12, as stated, fails when the recording file cannot be opened: session 7
has `SaveEnabled`, its file is not open and `QFile::open` fails; the callback
with `frameCount = 2` reads the bytes 1, 2, 3, 0 from the ring buffer, and
afterwards the file is still closed and nothing was written to it. -/
theorem callback_open_failure_counterexample :
    recordingSession.SaveEnabled = true ∧
    (recordingSession.AudioGenerator.read (2 * 2)).1 = [1, 2, 3, 0] ∧
    (audioStreamCallback recordingSession 2 false).2.2.AudioSaveFile.written = [] ∧
    (audioStreamCallback recordingSession 2 false).2.2.AudioSaveFile.isOpen = false ∧
    (audioStreamCallback recordingSession 2 false).2.2.AudioSaveFile.written
      ≠ recordingSession.AudioSaveFile.written
          ++ (recordingSession.AudioGenerator.read (2 * 2)).1 := by
  decide

/-- C12 (amended): an invocation of `audioStreamCallback` with
`frameCount = f` on a session whose ring buffer gives the bytes `B` (there
are `2 * f` of them) returns 0; with `SaveEnabled`, when the recording file
is open or `QFile::open` succeeds, the file is open afterwards and has
exactly `B` added to what was written, with `ListenEnabled` on or off;
without `SaveEnabled` the file is untouched; the output buffer is `B` with
`ListenEnabled` and `2 * f` zero bytes without; the file afterwards does not
depend on `ListenEnabled`, whatever `QFile::open` does. -/
theorem callback_records_then_mutes {D : Type} (vs : VoiceSession D) (f : Nat)
    (openSucceeds : Bool) :
    ((vs.AudioGenerator.read (2 * f)).1.length = 2 * f) ∧
    (audioStreamCallback vs f openSucceeds).1 = 0 ∧
    (vs.SaveEnabled = true →
      (vs.AudioSaveFile.isOpen = true ∨ openSucceeds = true) →
      (audioStreamCallback vs f openSucceeds).2.2.AudioSaveFile.written
        = vs.AudioSaveFile.written ++ (vs.AudioGenerator.read (2 * f)).1 ∧
      (audioStreamCallback vs f openSucceeds).2.2.AudioSaveFile.isOpen = true) ∧
    (vs.SaveEnabled = false →
      (audioStreamCallback vs f openSucceeds).2.2.AudioSaveFile = vs.AudioSaveFile) ∧
    (vs.ListenEnabled = true →
      (audioStreamCallback vs f openSucceeds).2.1 = (vs.AudioGenerator.read (2 * f)).1) ∧
    (vs.ListenEnabled = false →
      (audioStreamCallback vs f openSucceeds).2.1 = List.replicate (2 * f) 0) ∧
    (∀ b : Bool,
      (audioStreamCallback { vs with ListenEnabled := b } f openSucceeds).2.2.AudioSaveFile
        = (audioStreamCallback vs f openSucceeds).2.2.AudioSaveFile) := by
  have hsize : f * sizeof_opus_int16.toNat = 2 * f := by
    simp only [sizeof_opus_int16]
    have : (2 : Int).toNat = 2 := rfl
    rw [this]
    omega
  refine ⟨read_length _ _, rfl, ?_, ?_, ?_, ?_, ?_⟩
  · intro hs hopen
    cases ho : vs.AudioSaveFile.isOpen with
    | true => simp [audioStreamCallback, hs, ho, hsize, QFile.write]
    | false =>
      have hok : openSucceeds = true := by
        rcases hopen with h | h
        · rw [ho] at h
          exact Bool.noConfusion h
        · exact h
      simp [audioStreamCallback, hs, ho, hok, hsize, QFile.write, QFile.open]
  · intro hs
    simp [audioStreamCallback, hs]
  · intro hl
    cases hs : vs.SaveEnabled <;> simp [audioStreamCallback, hs, hl, hsize]
  · intro hl
    cases hs : vs.SaveEnabled <;> simp [audioStreamCallback, hs, hl, hsize]
  · intro b
    cases hs : vs.SaveEnabled <;> simp [audioStreamCallback, hs]

theorem callback_records_then_mutes_witness :
    recordingSession.SaveEnabled = true ∧
    (recordingSession.AudioSaveFile.isOpen = true ∨ true = true) ∧
    (audioStreamCallback recordingSession 2 true).2.2.AudioSaveFile.written
      = recordingSession.AudioSaveFile.written
          ++ (recordingSession.AudioGenerator.read (2 * 2)).1 ∧
    (audioStreamCallback recordingSession 2 true).2.2.AudioSaveFile.isOpen = true ∧
    (audioStreamCallback recordingSession 2 true).2.2.AudioSaveFile.written = [1, 2, 3, 0] ∧
    (audioStreamCallback recordingSession 2 true).2.1 = [0, 0, 0, 0] :=
  ⟨by decide, Or.inr rfl,
    ((callback_records_then_mutes recordingSession 2 true).2.2.1 (by decide)
      (Or.inr rfl)).1,
    ((callback_records_then_mutes recordingSession 2 true).2.2.1 (by decide)
      (Or.inr rfl)).2,
    by decide, by decide⟩

/-- C13 fails on the code: with a library that creates no decoder and opens
no stream, the first record for session 7 creates the session with a null
decoder and a null stream; once listening is switched on for it, the next
record for session 7 is handed to `opus_decode` all the same. -/
theorem failed_session_still_decoded :
    (clientRun failingEnv emptyClient
        [.datagram (VoiceRecord.mk 7 [1, 2, 3]).encode [],
          .setCapability 7 .Listen true]).map
      (fun c => c.m_voiceSessions.map
        (fun kv => (kv.1, kv.2.AudioDecoder, kv.2.AudioStream, kv.2.ListenEnabled)))
      = some [(7, none, none, true)] ∧
    (clientRun failingEnv emptyClient
        [.datagram (VoiceRecord.mk 7 [1, 2, 3]).encode [],
          .setCapability 7 .Listen true]).map (fun c => decodeEvents c.trace)
      = some [] ∧
    (clientRun failingEnv emptyClient
        [.datagram (VoiceRecord.mk 7 [1, 2, 3]).encode [],
          .setCapability 7 .Listen true,
          .datagram (VoiceRecord.mk 7 [1, 2, 3]).encode []]).map
      (fun c => decodeEvents c.trace)
      = some [.decode 7 [1, 2, 3] 3] := by
  decide

/-! ## Client: sessions of several ids -/

theorem update_tableKeys {D : Type} (env : Env D) (c : Client D) (id : Nat) :
    tableKeys (updateVoiceSessionList env c id).2.m_voiceSessions
      = tableKeys c.m_voiceSessions ++
          (if id ∈ tableKeys c.m_voiceSessions then [] else [id]) := by
  cases h : findSession id c.m_voiceSessions with
  | none =>
    rw [update_absent_table env c id h, if_neg ((findSession_none_iff id _).mp h)]
    simp [tableKeys]
  | some v =>
    have hmem : id ∈ tableKeys c.m_voiceSessions := by
      by_contra hn
      rw [← findSession_none_iff, h] at hn
      exact Option.noConfusion hn
    rw [update_found env c id v h, if_pos hmem, List.append_nil]

theorem decodeRecord_tableKeys {D : Type} (env : Env D) (c : Client D) (len id : Nat)
    (buffer : QByteArray) :
    tableKeys (decodeRecord env c len id buffer).m_voiceSessions
      = tableKeys c.m_voiceSessions ++
          (if id ∈ tableKeys c.m_voiceSessions then [] else [id]) := by
  rw [← update_tableKeys env c id]
  cases h : sessionEnabled c id with
  | false => rw [decodeRecord_muted env c len id buffer h]
  | true =>
    by_cases hr : (decodeOutput env c len id buffer).1 ≤ 0
    · rw [decodeRecord_failed env c len id buffer h hr]
      exact tableKeys_modify id _ _
    · rw [decodeRecord_succeeded env c len id buffer h (not_le.mp hr)]
      simp only [tableKeys_modify]

theorem decodeRecord_tableKeys_nodup {D : Type} (env : Env D) (c : Client D)
    (len id : Nat) (buffer : QByteArray) (hn : (tableKeys c.m_voiceSessions).Nodup) :
    (tableKeys (decodeRecord env c len id buffer).m_voiceSessions).Nodup := by
  rw [decodeRecord_tableKeys]
  by_cases h : id ∈ tableKeys c.m_voiceSessions
  · rw [if_pos h, List.append_nil]
    exact hn
  · rw [if_neg h, List.nodup_append]
    exact ⟨hn, by simp, by simpa using h⟩

theorem decodeRecord_created {D : Type} (env : Env D) (c : Client D) (len id : Nat)
    (buffer : QByteArray) (h : findSession id c.m_voiceSessions = none) :
    ∃ v, findSession id (decodeRecord env c len id buffer).m_voiceSessions = some v ∧
      v.Id = id ∧ v.AudioDecoder = (env.opus_decoder_create id).1 ∧
      v.AudioGenerator = { pending := [] } ∧ v.ListenEnabled = false ∧
      v.SaveEnabled = false := by
  have hen : sessionEnabled c id = false := by simp [sessionEnabled, h]
  obtain ⟨h1, h2, h3, h4, h5⟩ := update_absent_session env c id h
  rw [decodeRecord_muted env c len id buffer hen]
  exact ⟨_, update_find_self env c id, h1, h5, h4, h2, h3⟩

theorem decodeRecords_keysMatchIds {D : Type} (env : Env D) (c : Client D)
    (rs : List VoiceRecord) (buffer : QByteArray) (hk : KeysMatchIds c.m_voiceSessions) :
    KeysMatchIds (decodeRecords env c rs buffer).m_voiceSessions := by
  induction rs generalizing c buffer with
  | nil => exact hk
  | cons r rs ih =>
    rw [decodeRecords]
    exact ih _ _ (decodeRecord_keysMatchIds env c _ _ _ hk)

theorem decodeRecords_find_other {D : Type} (env : Env D) (c : Client D)
    (rs : List VoiceRecord) (buffer : QByteArray) (id2 : Nat)
    (h : id2 ∉ rs.map (fun r => r.sessionId)) :
    findSession id2 (decodeRecords env c rs buffer).m_voiceSessions
      = findSession id2 c.m_voiceSessions := by
  induction rs generalizing c buffer with
  | nil => rfl
  | cons r rs ih =>
    simp only [List.map_cons, List.mem_cons, not_or] at h
    rw [decodeRecords, ih _ _ h.2]
    exact decodeRecord_find_other env c _ _ id2 _ h.1

theorem decodeRecords_created {D : Type} (env : Env D) (c : Client D)
    (rs : List VoiceRecord) (buffer : QByteArray)
    (hd : (rs.map (fun r => r.sessionId)).Nodup) (r : VoiceRecord) (hr : r ∈ rs)
    (h : findSession r.sessionId c.m_voiceSessions = none) :
    ∃ v, findSession r.sessionId (decodeRecords env c rs buffer).m_voiceSessions = some v ∧
      v.Id = r.sessionId ∧ v.AudioDecoder = (env.opus_decoder_create r.sessionId).1 ∧
      v.AudioGenerator = { pending := [] } ∧ v.ListenEnabled = false ∧
      v.SaveEnabled = false := by
  induction rs generalizing c buffer with
  | nil => simp at hr
  | cons q rs ih =>
    simp only [List.map_cons, List.nodup_cons] at hd
    rw [decodeRecords]
    rcases List.mem_cons.mp hr with rfl | hr
    · rw [decodeRecords_find_other env _ rs _ r.sessionId hd.1]
      exact decodeRecord_created env c _ _ _ h
    · apply ih _ _ hd.2 hr
      have hne : r.sessionId ≠ q.sessionId := by
        intro heq
        exact hd.1 (heq ▸ List.mem_map_of_mem (fun r => r.sessionId) hr)
      rw [decodeRecord_find_other env c _ _ r.sessionId _ hne]
      exact h

theorem decodeRecords_tableKeys {D : Type} (env : Env D) (c : Client D)
    (rs : List VoiceRecord) (buffer : QByteArray)
    (hd : (rs.map (fun r => r.sessionId)).Nodup) :
    tableKeys (decodeRecords env c rs buffer).m_voiceSessions
      = tableKeys c.m_voiceSessions ++
          (rs.map (fun r => r.sessionId)).filter
            (fun i => decide (i ∉ tableKeys c.m_voiceSessions)) := by
  induction rs generalizing c buffer with
  | nil => simp [decodeRecords]
  | cons q rs ih =>
    simp only [List.map_cons, List.nodup_cons] at hd
    rw [decodeRecords, ih _ _ hd.2, decodeRecord_tableKeys, List.map_cons]
    have hcongr : (rs.map (fun r => r.sessionId)).filter
          (fun i => decide (i ∉ tableKeys c.m_voiceSessions ++
            (if q.sessionId ∈ tableKeys c.m_voiceSessions then [] else [q.sessionId])))
        = (rs.map (fun r => r.sessionId)).filter
          (fun i => decide (i ∉ tableKeys c.m_voiceSessions)) := by
      apply List.filter_congr
      intro i hi
      have hne : i ≠ q.sessionId := fun heq => hd.1 (heq ▸ hi)
      by_cases hq : q.sessionId ∈ tableKeys c.m_voiceSessions
      · simp [hq]
      · simp [hq, hne]
    rw [hcongr]
    by_cases hq : q.sessionId ∈ tableKeys c.m_voiceSessions
    · simp [hq, List.filter_cons]
    · simp [hq, List.filter_cons]

theorem decodeRecords_tableKeys_nodup {D : Type} (env : Env D) (c : Client D)
    (rs : List VoiceRecord) (buffer : QByteArray)
    (hn : (tableKeys c.m_voiceSessions).Nodup) :
    (tableKeys (decodeRecords env c rs buffer).m_voiceSessions).Nodup := by
  induction rs generalizing c buffer with
  | nil => exact hn
  | cons q rs ih =>
    rw [decodeRecords]
    exact ih _ _ (decodeRecord_tableKeys_nodup env c _ _ _ hn)

/-- C15: a datagram of well-formed records with pairwise distinct session ids
is consumed whole; afterwards the keys of the table are the old keys followed
by the ids of the records that had no session, in record order, without
repetition; every id of a record has a session stored under it, with that
`Id`; a session created by the datagram has the decoder that
`opus_decoder_create` gave for its id, an empty ring buffer and both flags
off; the sessions of ids that no record names are unchanged; and one record
leaves the session of every other id (ring buffer, decoder, flags) as it
was. -/
theorem sessions_are_separate {D : Type} (env : Env D) (c : Client D)
    (rs : List VoiceRecord) (buffer : QByteArray) (hwf : ∀ r ∈ rs, r.WellFormed)
    (hk : KeysMatchIds c.m_voiceSessions) (hn : (tableKeys c.m_voiceSessions).Nodup)
    (hd : (rs.map (fun r => r.sessionId)).Nodup) :
    ∃ c2, decodeVoiceDataStream env c (encodeRecords rs) buffer = some c2 ∧
      tableKeys c2.m_voiceSessions
        = tableKeys c.m_voiceSessions ++
            (rs.map (fun r => r.sessionId)).filter
              (fun i => decide (i ∉ tableKeys c.m_voiceSessions)) ∧
      (tableKeys c2.m_voiceSessions).Nodup ∧
      (∀ r ∈ rs, ∃ v, findSession r.sessionId c2.m_voiceSessions = some v ∧
        v.Id = r.sessionId) ∧
      (∀ r ∈ rs, findSession r.sessionId c.m_voiceSessions = none →
        ∃ v, findSession r.sessionId c2.m_voiceSessions = some v ∧
          v.Id = r.sessionId ∧ v.AudioDecoder = (env.opus_decoder_create r.sessionId).1 ∧
          v.AudioGenerator = { pending := [] } ∧ v.ListenEnabled = false ∧
          v.SaveEnabled = false) ∧
      (∀ id2, id2 ∉ rs.map (fun r => r.sessionId) →
        findSession id2 c2.m_voiceSessions = findSession id2 c.m_voiceSessions) ∧
      (∀ (c1 : Client D) (len id : Nat) (buf : QByteArray) (id2 : Nat), id2 ≠ id →
        findSession id2 (decodeRecord env c1 len id buf).m_voiceSessions
          = findSession id2 c1.m_voiceSessions) := by
  have hkeys := decodeRecords_tableKeys env c rs buffer hd
  have hk2 := decodeRecords_keysMatchIds env c rs buffer hk
  refine ⟨_, decodeVoiceDataStream_records env c rs buffer hwf, hkeys,
    decodeRecords_tableKeys_nodup env c rs buffer hn, ?_, ?_, ?_, ?_⟩
  · intro r hr
    have hmem : r.sessionId ∈ tableKeys (decodeRecords env c rs buffer).m_voiceSessions := by
      rw [hkeys, List.mem_append]
      by_cases hin : r.sessionId ∈ tableKeys c.m_voiceSessions
      · exact Or.inl hin
      · refine Or.inr (List.mem_filter.mpr ⟨?_, by simpa using hin⟩)
        exact List.mem_map_of_mem (fun r => r.sessionId) hr
    cases hf : findSession r.sessionId (decodeRecords env c rs buffer).m_voiceSessions with
    | none => exact absurd hmem ((findSession_none_iff _ _).mp hf)
    | some v => exact ⟨v, rfl, hk2 _ (findSession_mem _ _ _ hf)⟩
  · intro r hr hnone
    exact decodeRecords_created env c rs buffer hd r hr hnone
  · intro id2 hid
    exact decodeRecords_find_other env c rs buffer id2 hid
  · intro c1 len id buf id2 hne
    exact decodeRecord_find_other env c1 len id id2 buf hne

theorem sessions_are_separate_witness :
    (∀ r ∈ [VoiceRecord.mk 7 [1, 2, 3], VoiceRecord.mk 9 [4]], r.WellFormed) ∧
    KeysMatchIds emptyClient.m_voiceSessions ∧
    (tableKeys emptyClient.m_voiceSessions).Nodup ∧
    (([VoiceRecord.mk 7 [1, 2, 3], VoiceRecord.mk 9 [4]]).map
      (fun r => r.sessionId)).Nodup ∧
    ∃ c2, decodeVoiceDataStream exampleEnv emptyClient
        (encodeRecords [VoiceRecord.mk 7 [1, 2, 3], VoiceRecord.mk 9 [4]]) [] = some c2 ∧
      tableKeys c2.m_voiceSessions = [7, 9] :=
  have hwf : ∀ r ∈ [VoiceRecord.mk 7 [1, 2, 3], VoiceRecord.mk 9 [4]],
      r.WellFormed := by
    intro r hr
    simp only [List.mem_cons, List.mem_singleton, List.not_mem_nil, or_false] at hr
    rcases hr with rfl | rfl <;> exact ⟨by decide, by decide⟩
  have hk : KeysMatchIds emptyClient.m_voiceSessions := by
    intro kv hkv
    simp [emptyClient] at hkv
  ⟨hwf, hk, by decide, by decide,
    (sessions_are_separate exampleEnv emptyClient
      [VoiceRecord.mk 7 [1, 2, 3], VoiceRecord.mk 9 [4]] [] hwf hk (by decide)
      (by decide)).imp (fun _ h => ⟨h.1, h.2.1.trans (by decide)⟩)⟩

/-! ## Client: runs -/

theorem decodeVoiceDataStream_invariant {D : Type} (env : Env D) (P : Client D → Prop)
    (hP : ∀ (c : Client D) (len id : Nat) (buf : QByteArray),
      P c → P (decodeRecord env c len id buf))
    (c : Client D) (stream buffer : QByteArray) (h : P c) :
    ∃ c2, decodeVoiceDataStream env c stream buffer = some c2 ∧ P c2 := by
  generalize hn : stream.length = n
  induction n using Nat.strong_induction_on generalizing c stream buffer with
  | _ n ih =>
    by_cases hs : stream = []
    · subst hs
      exact ⟨c, rfl, h⟩
    · rw [decodeVoiceDataStream_step env c stream buffer hs]
      have hlt := decodeStep_stream_length env c stream buffer hs
      exact ih _ (by omega) _ _ _ (hP c _ _ _ h) rfl

theorem clientStep_grows {D : Type} (env : Env D) (c0 c : Client D) (op : ClientOp)
    (h : (∀ id ∈ tableKeys c0.m_voiceSessions, id ∈ tableKeys c.m_voiceSessions) ∧
      KeysMatchIds c.m_voiceSessions) :
    ∃ c2, clientStep env c op = some c2 ∧
      (∀ id ∈ tableKeys c0.m_voiceSessions, id ∈ tableKeys c2.m_voiceSessions) ∧
      KeysMatchIds c2.m_voiceSessions := by
  cases op with
  | datagram s b =>
    apply decodeVoiceDataStream_invariant env
      (fun x => (∀ id ∈ tableKeys c0.m_voiceSessions, id ∈ tableKeys x.m_voiceSessions) ∧
        KeysMatchIds x.m_voiceSessions) _ c s b h
    intro x len id buf hx
    refine ⟨?_, decodeRecord_keysMatchIds env x len id buf hx.2⟩
    intro i hi
    rw [decodeRecord_tableKeys]
    exact List.mem_append_left _ (hx.1 i hi)
  | ensure id =>
    refine ⟨_, rfl, ?_, update_keysMatchIds env c id h.2⟩
    intro i hi
    rw [update_tableKeys]
    exact List.mem_append_left _ (h.1 i hi)
  | setCapability id cap en =>
    refine ⟨_, rfl, ?_, setCapability_keysMatchIds c id cap en h.2⟩
    intro i hi
    rw [setCapability_tableKeys]
    exact h.1 i hi

theorem clientRun_grows {D : Type} (env : Env D) (c0 c : Client D) (ops : List ClientOp)
    (h : (∀ id ∈ tableKeys c0.m_voiceSessions, id ∈ tableKeys c.m_voiceSessions) ∧
      KeysMatchIds c.m_voiceSessions) :
    ∃ c2, clientRun env c ops = some c2 ∧
      (∀ id ∈ tableKeys c0.m_voiceSessions, id ∈ tableKeys c2.m_voiceSessions) ∧
      KeysMatchIds c2.m_voiceSessions := by
  induction ops generalizing c with
  | nil => exact ⟨c, rfl, h⟩
  | cons op ops ih =>
    obtain ⟨c1, h1, h2⟩ := clientStep_grows env c0 c op h
    obtain ⟨c2, g1, g2⟩ := ih c1 h2
    exact ⟨c2, by rw [clientRun, h1]; exact g1, g2⟩

theorem clientRun_append {D : Type} (env : Env D) (c c1 : Client D)
    (ops1 ops2 : List ClientOp) (h : clientRun env c ops1 = some c1) :
    clientRun env c (ops1 ++ ops2) = clientRun env c1 ops2 := by
  induction ops1 generalizing c with
  | nil =>
    simp only [clientRun, Option.some.injEq] at h
    subst h
    rfl
  | cons op ops ih =>
    rw [List.cons_append, clientRun]
    rw [clientRun] at h
    cases hs : clientStep env c op with
    | none => simp [hs] at h
    | some cm =>
      simp only [hs] at h ⊢
      exact ih cm h

/-- C16: every sequence of `decodeVoiceDataStream`, `updateVoiceSessionList`
and `setVoiceSessionCapability` calls runs to the end; a session id that is a
key of the table after the first `ops1` calls is a key, with a session stored
under it, after any further calls `ops2`; and when every session starts
stored under its own `Id` (as in the empty table) this holds at both
points. -/
theorem session_table_only_grows {D : Type} (env : Env D) (c : Client D)
    (ops1 ops2 : List ClientOp) (hk : KeysMatchIds c.m_voiceSessions) :
    ∃ c1 c2, clientRun env c ops1 = some c1 ∧
      clientRun env c (ops1 ++ ops2) = some c2 ∧
      (∀ id ∈ tableKeys c.m_voiceSessions, id ∈ tableKeys c1.m_voiceSessions) ∧
      (∀ id ∈ tableKeys c1.m_voiceSessions, id ∈ tableKeys c2.m_voiceSessions) ∧
      (∀ id, (findSession id c1.m_voiceSessions).isSome →
        ∃ v, findSession id c2.m_voiceSessions = some v ∧ v.Id = id) ∧
      KeysMatchIds c1.m_voiceSessions ∧ KeysMatchIds c2.m_voiceSessions := by
  obtain ⟨c1, h1, h2, h3⟩ := clientRun_grows env c c ops1 ⟨fun _ hi => hi, hk⟩
  obtain ⟨c2, g1, g2, g3⟩ := clientRun_grows env c1 c1 ops2 ⟨fun _ hi => hi, h3⟩
  refine ⟨c1, c2, h1, by rw [clientRun_append env c c1 ops1 ops2 h1]; exact g1, h2, g2,
    ?_, h3, g3⟩
  intro id hsome
  have hmem : id ∈ tableKeys c1.m_voiceSessions := by
    by_contra hn
    rw [← findSession_none_iff] at hn
    rw [hn] at hsome
    exact Bool.noConfusion hsome
  cases hf : findSession id c2.m_voiceSessions with
  | none => exact absurd (g2 id hmem) ((findSession_none_iff _ _).mp hf)
  | some v => exact ⟨v, rfl, g3 _ (findSession_mem _ _ _ hf)⟩

theorem session_table_only_grows_witness :
    KeysMatchIds emptyClient.m_voiceSessions ∧
    ∃ c1 c2, clientRun exampleEnv emptyClient
        [.datagram (VoiceRecord.mk 7 [1, 2, 3]).encode [], .setCapability 7 .Listen true]
        = some c1 ∧
      clientRun exampleEnv emptyClient
        ([.datagram (VoiceRecord.mk 7 [1, 2, 3]).encode [], .setCapability 7 .Listen true]
          ++ [.ensure 9, .datagram [1] [0]]) = some c2 ∧
      (∀ id ∈ tableKeys c1.m_voiceSessions, id ∈ tableKeys c2.m_voiceSessions) :=
  have hk : KeysMatchIds emptyClient.m_voiceSessions := by
    intro kv hkv
    simp [emptyClient] at hkv
  ⟨hk,
    (session_table_only_grows exampleEnv emptyClient
      [.datagram (VoiceRecord.mk 7 [1, 2, 3]).encode [], .setCapability 7 .Listen true]
      [.ensure 9, .datagram [1] [0]] hk).imp
      (fun _ h => h.imp (fun _ g => ⟨g.1, g.2.1, g.2.2.2.1⟩))⟩

end TS3Tunnel
